import Mathlib

/-!
Verification of the `llm_gateway` dispatch fabric: a shallow embedding of
the controller's circuit breaker, worker registry, router, health checker,
and of the worker-side registration client, together with theorems about
the spec's claims.  Wall-clock instants are modelled as rationals and are
passed explicitly to every operation that reads the clock.
-/

/-- The three states of `CircuitBreaker.state`
(`src/llm_gateway/controller/circuit_breaker.py`). -/
inductive CBState where
  | closed
  | «open»
  | half_open
deriving DecidableEq, Repr

/-- The mutable fields of class `CircuitBreaker`, plus its two constructor
parameters (`failure_threshold`, default 5, and `recovery_timeout` seconds,
default 30). -/
structure CircuitBreaker where
  failure_threshold : ℕ
  recovery_timeout : ℤ
  state : CBState
  failure_count : ℕ
  last_failure : Option ℚ
  last_state_change : ℚ
deriving DecidableEq, Repr

namespace CircuitBreaker

/-- `CircuitBreaker.__init__`: closed, no failures, at clock instant `now`. -/
def init (failure_threshold : ℕ) (recovery_timeout : ℤ) (now : ℚ) : CircuitBreaker :=
  { failure_threshold := failure_threshold
    recovery_timeout := recovery_timeout
    state := CBState.closed
    failure_count := 0
    last_failure := none
    last_state_change := now }

/-- `CircuitBreaker._transition_to`: set the state, stamp the change time,
and on entering `closed` clear `failure_count` and `last_failure`. -/
def transition_to (b : CircuitBreaker) (new_state : CBState) (now : ℚ) : CircuitBreaker :=
  if new_state = CBState.closed then
    { b with state := new_state, last_state_change := now,
             failure_count := 0, last_failure := none }
  else
    { b with state := new_state, last_state_change := now }

/-- `CircuitBreaker.record_success`: close from `half_open`; zero the count
in `closed`; do nothing in `open`. -/
def record_success (b : CircuitBreaker) (now : ℚ) : CircuitBreaker :=
  if b.state = CBState.half_open then b.transition_to CBState.closed now
  else if b.state = CBState.closed then { b with failure_count := 0 }
  else b

/-- `CircuitBreaker.record_failure`: bump the count, stamp `last_failure`,
then reopen from `half_open`, or open from `closed` once the count reaches
the threshold. -/
def record_failure (b : CircuitBreaker) (now : ℚ) : CircuitBreaker :=
  let b1 := { b with failure_count := b.failure_count + 1, last_failure := some now }
  if b1.state = CBState.half_open then b1.transition_to CBState.«open» now
  else if b1.state = CBState.closed ∧ b1.failure_count ≥ b1.failure_threshold then
    b1.transition_to CBState.«open» now
  else b1

/-- `CircuitBreaker._should_attempt_recovery`: true when no failure is
recorded or the recovery window has elapsed since the last one. -/
def should_attempt_recovery (b : CircuitBreaker) (now : ℚ) : Bool :=
  match b.last_failure with
  | none => true
  | some t => decide (now - t ≥ (b.recovery_timeout : ℚ))

/-- `CircuitBreaker.is_available`: returns the answer together with the
breaker (the call mutates the breaker on the `open → half_open` path). -/
def is_available (b : CircuitBreaker) (now : ℚ) : Bool × CircuitBreaker :=
  if b.state = CBState.closed then (true, b)
  else if b.state = CBState.«open» then
    if b.should_attempt_recovery now then
      (true, b.transition_to CBState.half_open now)
    else (false, b)
  else (true, b)

/-- `CircuitBreaker.reset`: unconditionally transition to `closed`. -/
def reset (b : CircuitBreaker) (now : ℚ) : CircuitBreaker :=
  b.transition_to CBState.closed now

end CircuitBreaker

/-- A sequence of `record_failure` calls at the given instants. -/
def applyFailures (b : CircuitBreaker) (ts : List ℚ) : CircuitBreaker :=
  ts.foldl CircuitBreaker.record_failure b

/-- The breaker states reachable from a freshly constructed breaker through
its public operations. -/
inductive CBReachable : CircuitBreaker → Prop where
  | init (F : ℕ) (T : ℤ) (t : ℚ) : CBReachable (CircuitBreaker.init F T t)
  | success (b : CircuitBreaker) (now : ℚ) :
      CBReachable b → CBReachable (b.record_success now)
  | failure (b : CircuitBreaker) (now : ℚ) :
      CBReachable b → CBReachable (b.record_failure now)
  | available (b : CircuitBreaker) (now : ℚ) :
      CBReachable b → CBReachable (b.is_available now).2
  | reset (b : CircuitBreaker) (now : ℚ) :
      CBReachable b → CBReachable (b.reset now)

namespace CircuitBreaker

lemma applyFailures_cons (b : CircuitBreaker) (t : ℚ) (ts : List ℚ) :
    applyFailures b (t :: ts) = applyFailures (b.record_failure t) ts := rfl

lemma applyFailures_append (b : CircuitBreaker) (ts us : List ℚ) :
    applyFailures b (ts ++ us) = applyFailures (applyFailures b ts) us := by
  simp [applyFailures]

lemma record_failure_closed_lt (b : CircuitBreaker) (t : ℚ)
    (hb : b.state = CBState.closed) (h : b.failure_count + 1 < b.failure_threshold) :
    b.record_failure t =
      { b with failure_count := b.failure_count + 1, last_failure := some t } := by
  unfold record_failure
  simp only [hb]
  rw [if_neg (by simp), if_neg (by simp; omega)]

lemma record_failure_closed_ge (b : CircuitBreaker) (t : ℚ)
    (hb : b.state = CBState.closed) (h : b.failure_threshold ≤ b.failure_count + 1) :
    b.record_failure t =
      { b with state := CBState.«open», failure_count := b.failure_count + 1,
               last_failure := some t, last_state_change := t } := by
  unfold record_failure transition_to
  simp only [hb]
  rw [if_neg (by simp), if_pos (by simp; omega), if_neg (by simp)]

lemma record_failure_last (b : CircuitBreaker) (t : ℚ) :
    (b.record_failure t).last_failure = some t := by
  unfold record_failure transition_to
  dsimp only
  split_ifs <;> simp_all

lemma applyFailures_closed (ts : List ℚ) : ∀ b : CircuitBreaker,
    b.state = CBState.closed →
    b.failure_count + ts.length < b.failure_threshold →
    (applyFailures b ts).state = CBState.closed ∧
    (applyFailures b ts).failure_count = b.failure_count + ts.length ∧
    (applyFailures b ts).failure_threshold = b.failure_threshold ∧
    (applyFailures b ts).recovery_timeout = b.recovery_timeout := by
  induction ts with
  | nil =>
      intro b hb _
      simp [applyFailures, hb]
  | cons t ts ih =>
      intro b hb hlt
      simp only [List.length_cons] at hlt
      rw [applyFailures_cons, record_failure_closed_lt b t hb (by omega)]
      obtain ⟨h1, h2, h3, h4⟩ :=
        ih { b with failure_count := b.failure_count + 1, last_failure := some t } hb
          (by simp; omega)
      refine ⟨h1, ?_, by simpa using h3, by simpa using h4⟩
      rw [h2]
      simp
      omega

end CircuitBreaker

namespace CircuitBreaker

lemma is_available_open_denied (b : CircuitBreaker) (t now : ℚ)
    (hb : b.state = CBState.«open») (hl : b.last_failure = some t)
    (h : now - t < (b.recovery_timeout : ℚ)) :
    b.is_available now = (false, b) := by
  unfold is_available should_attempt_recovery
  rw [if_neg (by simp [hb]), if_pos hb, hl]
  rw [if_neg (by simpa using not_le.mpr h)]

lemma is_available_open_recovery (b : CircuitBreaker) (t now : ℚ)
    (hb : b.state = CBState.«open») (hl : b.last_failure = some t)
    (h : (b.recovery_timeout : ℚ) ≤ now - t) :
    b.is_available now = (true, b.transition_to CBState.half_open now) := by
  unfold is_available should_attempt_recovery
  rw [if_neg (by simp [hb]), if_pos hb, hl]
  rw [if_pos (by simpa using h)]

lemma record_success_half_open (b : CircuitBreaker) (now : ℚ)
    (hb : b.state = CBState.half_open) :
    b.record_success now = b.transition_to CBState.closed now := by
  unfold record_success
  rw [if_pos hb]

lemma record_failure_half_open (b : CircuitBreaker) (now : ℚ)
    (hb : b.state = CBState.half_open) :
    (b.record_failure now).state = CBState.«open» := by
  unfold record_failure transition_to
  dsimp only
  rw [if_pos (by simpa using hb), if_neg (by simp)]

end CircuitBreaker

/-- C2: from a fresh breaker with threshold `F` ≥ 1, `record_failure` keeps
the state `closed` while the count is below `F` and opens the breaker,
recording the last failure time, when the count reaches `F`; while `open`,
`is_available` returns false and leaves the breaker untouched inside the
recovery window and transitions to `half_open` returning true once
`recovery_timeout` has elapsed since the last failure; in `half_open`,
`record_success` closes the breaker and `record_failure` reopens it. -/
theorem cb_C2_state_machine (F : ℕ) (T : ℤ) (t0 : ℚ) (hF : 0 < F) :
    (∀ ts : List ℚ, ts.length < F →
       (applyFailures (CircuitBreaker.init F T t0) ts).state = CBState.closed ∧
       (applyFailures (CircuitBreaker.init F T t0) ts).failure_count = ts.length) ∧
    (∀ ts : List ℚ, ts.length = F →
       (applyFailures (CircuitBreaker.init F T t0) ts).state = CBState.«open» ∧
       (applyFailures (CircuitBreaker.init F T t0) ts).last_failure = ts.getLast?) ∧
    (∀ (b : CircuitBreaker) (t now : ℚ),
       b.state = CBState.«open» → b.last_failure = some t →
       (now - t < (b.recovery_timeout : ℚ) → b.is_available now = (false, b)) ∧
       ((b.recovery_timeout : ℚ) ≤ now - t →
          (b.is_available now).1 = true ∧
          (b.is_available now).2.state = CBState.half_open)) ∧
    (∀ (b : CircuitBreaker) (now : ℚ), b.state = CBState.half_open →
       (b.record_success now).state = CBState.closed ∧
       (b.record_failure now).state = CBState.«open») := by
  refine ⟨?_, ?_, ?_, ?_⟩
  · intro ts hlen
    have h := CircuitBreaker.applyFailures_closed ts (CircuitBreaker.init F T t0)
      rfl (by simpa [CircuitBreaker.init] using hlen)
    exact ⟨h.1, by simpa [CircuitBreaker.init] using h.2.1⟩
  · intro ts hlen
    have hne : ts ≠ [] := by
      intro h
      rw [h] at hlen
      simp at hlen
      omega
    have hsplit := List.dropLast_append_getLast hne
    rw [← hsplit, CircuitBreaker.applyFailures_append]
    have hdrop : ts.dropLast.length = F - 1 := by
      rw [List.length_dropLast, hlen]
    have h := CircuitBreaker.applyFailures_closed ts.dropLast
      (CircuitBreaker.init F T t0) rfl
      (by simp [CircuitBreaker.init, hdrop]; omega)
    have hstep := CircuitBreaker.record_failure_closed_ge
      (applyFailures (CircuitBreaker.init F T t0) ts.dropLast)
      (ts.getLast hne) h.1
      (by rw [h.2.2.1, h.2.1]; simp [CircuitBreaker.init, hdrop]; omega)
    have hsingle : applyFailures (applyFailures (CircuitBreaker.init F T t0) ts.dropLast)
        [ts.getLast hne] =
        (applyFailures (CircuitBreaker.init F T t0) ts.dropLast).record_failure
          (ts.getLast hne) := rfl
    rw [hsingle, hstep]
    exact ⟨rfl, by simp⟩
  · intro b t now hb hl
    constructor
    · intro h
      exact CircuitBreaker.is_available_open_denied b t now hb hl h
    · intro h
      rw [CircuitBreaker.is_available_open_recovery b t now hb hl h]
      exact ⟨rfl, by simp [CircuitBreaker.transition_to]⟩
  · intro b now hb
    refine ⟨?_, CircuitBreaker.record_failure_half_open b now hb⟩
    rw [CircuitBreaker.record_success_half_open b now hb]
    simp [CircuitBreaker.transition_to]

/-- Witness for C2 at `F = 2`, `T = 30`: two failures open the breaker and
record the second failure's instant. -/
theorem cb_C2_state_machine_witness :
    (applyFailures (CircuitBreaker.init 2 30 0) [5, 7]).state = CBState.«open» ∧
    (applyFailures (CircuitBreaker.init 2 30 0) [5, 7]).last_failure = some 7 :=
  ((cb_C2_state_machine 2 30 0 (by decide)).2.1 [5, 7] (by decide))

/-- A breaker driven to `open` by five failures (threshold 5). -/
def cbOpenedFive : CircuitBreaker :=
  applyFailures (CircuitBreaker.init 5 30 0) [1, 2, 3, 4, 5]

/-- C3 counterexample: in state `open`, `record_success` does not reset
`failure_count` — on a breaker opened by five failures the count stays 5. -/
theorem cb_C3_cex :
    cbOpenedFive.state = CBState.«open» ∧
    (cbOpenedFive.record_success 6).failure_count = 5 ∧
    ¬ (cbOpenedFive.record_success 6).failure_count = 0 := by decide

/-- C3 amended: `record_success` resets `failure_count` to 0 in states
`closed` and `half_open`; in state `open` it leaves the breaker unchanged
(so the count is only reset by successes observed while not `open`). -/
theorem cb_C3_amended (b : CircuitBreaker) (now : ℚ) :
    (b.state = CBState.closed ∨ b.state = CBState.half_open →
       (b.record_success now).failure_count = 0) ∧
    (b.state = CBState.«open» → b.record_success now = b) := by
  constructor
  · rintro (hb | hb)
    · unfold CircuitBreaker.record_success
      rw [if_neg (by simp [hb]), if_pos hb]
    · rw [CircuitBreaker.record_success_half_open b now hb]
      simp [CircuitBreaker.transition_to]
  · intro hb
    unfold CircuitBreaker.record_success
    rw [if_neg (by simp [hb]), if_neg (by simp [hb])]

/-- Witness for the amended C3: a success on a fresh (closed) breaker keeps
the count at zero. -/
theorem cb_C3_amended_witness :
    ((CircuitBreaker.init 5 30 0).record_success 1).failure_count = 0 :=
  (cb_C3_amended (CircuitBreaker.init 5 30 0) 1).1 (Or.inl rfl)

/-- While the breaker is `open`, `record_failure` leaves the state `open`
and merely bumps the count and restamps `last_failure`. -/
lemma record_failure_open (b : CircuitBreaker) (now : ℚ)
    (hb : b.state = CBState.«open») :
    b.record_failure now =
      { b with failure_count := b.failure_count + 1, last_failure := some now } := by
  unfold CircuitBreaker.record_failure
  rw [if_neg (by simp [hb]), if_neg (by simp [hb])]

/-- In every reachable breaker state, being `open` implies a recorded
`last_failure`. -/
lemma cb_reachable_open_has_last : ∀ b : CircuitBreaker,
    CBReachable b → b.state = CBState.«open» → b.last_failure ≠ none := by
  intro b hb
  induction hb with
  | init F T t => intro h; exact absurd h (by simp [CircuitBreaker.init])
  | success b now _ ih =>
      intro h
      unfold CircuitBreaker.record_success at h ⊢
      split_ifs at h ⊢ with h1 h2
      · exact absurd h (by simp [CircuitBreaker.transition_to])
      · exact ih h
      · exact ih h
  | failure b now _ ih =>
      intro _
      rw [CircuitBreaker.record_failure_last]
      simp
  | available b now _ ih =>
      intro h
      unfold CircuitBreaker.is_available at h ⊢
      split_ifs at h ⊢ with h1 h2 h3
      · exact ih h
      · exact absurd h (by simp [CircuitBreaker.transition_to])
      · exact ih h
      · exact ih h
  | reset b now _ ih =>
      intro h
      exact absurd h (by simp [CircuitBreaker.reset, CircuitBreaker.transition_to])

/-- C10: in state `open`, `record_failure` keeps the breaker `open` while
incrementing `failure_count` and restamping `last_failure` with the current
time; hence a failure recorded at `tf` while `open` makes `is_available`
deny requests until `recovery_timeout` has elapsed after `tf`; and in every
reachable state, `state = open` implies `last_failure` is set. -/
theorem cb_C10_open_failures :
    (∀ (b : CircuitBreaker) (now : ℚ), b.state = CBState.«open» →
       b.record_failure now =
         { b with failure_count := b.failure_count + 1, last_failure := some now } ∧
       (b.record_failure now).state = CBState.«open») ∧
    (∀ (b : CircuitBreaker) (tf now : ℚ), b.state = CBState.«open» →
       now - tf < (b.recovery_timeout : ℚ) →
       ((b.record_failure tf).is_available now).1 = false) ∧
    (∀ b : CircuitBreaker, CBReachable b → b.state = CBState.«open» →
       b.last_failure ≠ none) := by
  refine ⟨?_, ?_, cb_reachable_open_has_last⟩
  · intro b now hb
    exact ⟨record_failure_open b now hb, by rw [record_failure_open b now hb]; exact hb⟩
  · intro b tf now hb hwin
    rw [record_failure_open b tf hb,
        CircuitBreaker.is_available_open_denied
          { b with failure_count := b.failure_count + 1, last_failure := some tf }
          tf now hb rfl hwin]

/-- Witness for C10 on a breaker opened by a single failure (threshold 1):
a further failure at time 2 keeps it `open`, and requests are denied at
time 20 (window 30). -/
theorem cb_C10_open_failures_witness :
    (((CircuitBreaker.init 1 30 0).record_failure 1).record_failure 2).state =
      CBState.«open» ∧
    ((((CircuitBreaker.init 1 30 0).record_failure 1).record_failure 2).is_available
      20).1 = false ∧
    ((CircuitBreaker.init 1 30 0).record_failure 1).last_failure ≠ none :=
  ⟨(cb_C10_open_failures.1 ((CircuitBreaker.init 1 30 0).record_failure 1) 2
      (by decide)).2,
   cb_C10_open_failures.2.1 ((CircuitBreaker.init 1 30 0).record_failure 1) 2 20
      (by decide)
      (by norm_num [show ((CircuitBreaker.init 1 30 0).record_failure 1).recovery_timeout
                      = 30 from rfl]),
   cb_C10_open_failures.2.2 ((CircuitBreaker.init 1 30 0).record_failure 1)
      (CBReachable.failure (CircuitBreaker.init 1 30 0) 1
        (CBReachable.init 1 30 0)) (by decide)⟩

/-! Association-list machinery shared by the registry, the router's breaker
map and the health checker's probe-failure counters.  Python dicts preserve
insertion order: a fresh key is appended at the end, an existing key keeps
its position, `del` removes the single entry with that key. -/

/-- First value stored under key `k`. -/
def alookup {α : Type} : List (String × α) → String → Option α
  | [], _ => none
  | (a, b) :: ps, k => if a = k then some b else alookup ps k

/-- Overwrite the value stored under key `k`, keeping its position. -/
def aupdate {α : Type} (l : List (String × α)) (k : String) (v : α) :
    List (String × α) :=
  l.map (fun p => if p.1 = k then (k, v) else p)

/-- Delete the entry stored under key `k` (`del d[k]` / `d.pop(k, None)`). -/
def aerase {α : Type} (l : List (String × α)) (k : String) : List (String × α) :=
  l.eraseP (fun p => decide (p.1 = k))

namespace ALookup

variable {α : Type}

lemma map_eq_self {β : Type} {l : List β} {f : β → β} (h : ∀ p ∈ l, f p = p) :
    l.map f = l := by
  induction l with
  | nil => rfl
  | cons p ps ih =>
      rw [List.map_cons, h p (List.mem_cons_self p ps),
          ih (fun q hq => h q (List.mem_cons_of_mem p hq))]

lemma alookup_eq_none {l : List (String × α)} {k : String} :
    alookup l k = none ↔ ∀ p ∈ l, p.1 ≠ k := by
  induction l with
  | nil => simp [alookup]
  | cons p ps ih =>
      obtain ⟨a, b⟩ := p
      by_cases h : a = k <;> simp [alookup, h, ih]

lemma mem_of_alookup {l : List (String × α)} {k : String} {v : α}
    (h : alookup l k = some v) : (k, v) ∈ l := by
  induction l with
  | nil => simp [alookup] at h
  | cons p ps ih =>
      obtain ⟨a, b⟩ := p
      by_cases hk : a = k
      · subst hk
        simp [alookup] at h
        subst h
        exact List.mem_cons_self _ _
      · simp [alookup, hk] at h
        exact List.mem_cons_of_mem _ (ih h)

lemma keys_eq_of_mem {l : List (String × α)} {p q : String × α}
    (hnd : (l.map Prod.fst).Nodup) (hp : p ∈ l) (hq : q ∈ l) (h : p.1 = q.1) :
    p = q := by
  induction l with
  | nil => simp at hp
  | cons r rs ih =>
      simp only [List.map_cons, List.nodup_cons] at hnd
      rcases List.mem_cons.mp hp with hp | hp <;>
        rcases List.mem_cons.mp hq with hq | hq
      · rw [hp, hq]
      · exact absurd (List.mem_map_of_mem Prod.fst hq)
          (by rw [← h, hp]; exact hnd.1)
      · exact absurd (List.mem_map_of_mem Prod.fst hp)
          (by rw [h, hq]; exact hnd.1)
      · exact ih hnd.2 hp hq

lemma alookup_of_mem {l : List (String × α)} {k : String} {v : α}
    (hnd : (l.map Prod.fst).Nodup) (h : (k, v) ∈ l) : alookup l k = some v := by
  induction l with
  | nil => simp at h
  | cons p ps ih =>
      obtain ⟨a, b⟩ := p
      simp only [List.map_cons, List.nodup_cons] at hnd
      rcases List.mem_cons.mp h with h | h
      · rw [← h]
        simp [alookup]
      · have hk : a ≠ k := by
          intro hc
          exact hnd.1 (by rw [hc]; exact List.mem_map_of_mem Prod.fst h)
        simp [alookup, hk]
        exact ih hnd.2 h

lemma alookup_append_self {l : List (String × α)} {k : String} (v : α)
    (h : alookup l k = none) : alookup (l ++ [(k, v)]) k = some v := by
  induction l with
  | nil => simp [alookup]
  | cons p ps ih =>
      obtain ⟨a, b⟩ := p
      by_cases hk : a = k
      · simp [alookup, hk] at h
      · simp [alookup, hk] at h ⊢
        exact ih h

lemma alookup_append_ne {l : List (String × α)} {k k' : String} (v : α)
    (h : k ≠ k') : alookup (l ++ [(k, v)]) k' = alookup l k' := by
  induction l with
  | nil => simp [alookup, h]
  | cons p ps ih =>
      obtain ⟨a, b⟩ := p
      by_cases hk : a = k' <;> simp [alookup, hk, ih]

lemma alookup_aupdate_self {l : List (String × α)} {k : String} {w : α} (v : α)
    (h : alookup l k = some w) : alookup (aupdate l k v) k = some v := by
  induction l with
  | nil => simp [alookup] at h
  | cons p ps ih =>
      obtain ⟨a, b⟩ := p
      by_cases hk : a = k
      · subst hk
        simp only [aupdate, List.map_cons]
        simp [alookup]
      · simp only [aupdate, List.map_cons]
        rw [if_neg hk]
        simp [alookup, hk] at h ⊢
        simpa [aupdate] using ih h

lemma alookup_aupdate_ne {l : List (String × α)} {k k' : String} (v : α)
    (h : k ≠ k') : alookup (aupdate l k v) k' = alookup l k' := by
  induction l with
  | nil => simp [aupdate, alookup]
  | cons p ps ih =>
      obtain ⟨a, b⟩ := p
      by_cases hk : a = k
      · have : ¬ a = k' := by rw [hk]; exact h
        simp only [aupdate, List.map_cons, if_pos hk]
        simp [alookup, h, this]
        simpa [aupdate] using ih
      · by_cases hk' : a = k' <;>
          simp only [aupdate, List.map_cons, if_neg hk] <;>
          simp [alookup, hk'] <;> simpa [aupdate] using ih

lemma aupdate_keys {l : List (String × α)} {k : String} {v : α} :
    (aupdate l k v).map Prod.fst = l.map Prod.fst := by
  unfold aupdate
  rw [List.map_map]
  apply List.map_congr_left
  intro p _
  by_cases hk : p.1 = k <;> simp [hk]

lemma mem_aupdate {l : List (String × α)} {k : String} {v : α} {q : String × α}
    (h : q ∈ aupdate l k v) : q = (k, v) ∨ (q ∈ l ∧ q.1 ≠ k) := by
  unfold aupdate at h
  rcases List.mem_map.mp h with ⟨p, hp, hpq⟩
  by_cases hk : p.1 = k
  · rw [if_pos hk] at hpq
    exact Or.inl hpq.symm
  · rw [if_neg hk] at hpq
    exact Or.inr ⟨hpq ▸ hp, hpq ▸ hk⟩

lemma mem_aupdate_of_ne {l : List (String × α)} {k : String} {v : α}
    {q : String × α} (hq : q ∈ l) (h : q.1 ≠ k) : q ∈ aupdate l k v := by
  unfold aupdate
  exact List.mem_map.mpr ⟨q, hq, by rw [if_neg h]⟩

lemma mem_aupdate_self {l : List (String × α)} {k : String} {w : α} (v : α)
    (hq : (k, w) ∈ l) : (k, v) ∈ aupdate l k v := by
  unfold aupdate
  exact List.mem_map.mpr ⟨(k, w), hq, by rw [if_pos rfl]⟩

lemma aupdate_aupdate {l : List (String × α)} {k : String} (v w : α) :
    aupdate (aupdate l k v) k w = aupdate l k w := by
  unfold aupdate
  rw [List.map_map]
  apply List.map_congr_left
  intro p _
  by_cases hk : p.1 = k <;> simp [hk]

lemma aupdate_self {l : List (String × α)} {k : String} {v : α}
    (hnd : (l.map Prod.fst).Nodup) (h : alookup l k = some v) :
    aupdate l k v = l := by
  unfold aupdate
  apply map_eq_self
  intro p hp
  by_cases hk : p.1 = k
  · rw [if_pos hk]
    exact keys_eq_of_mem hnd (mem_of_alookup h) hp hk.symm
  · rw [if_neg hk]

lemma aerase_sublist (l : List (String × α)) (k : String) :
    (aerase l k).Sublist l := List.eraseP_sublist l

lemma mem_of_aerase {l : List (String × α)} {k : String} {q : String × α}
    (h : q ∈ aerase l k) : q ∈ l := (aerase_sublist l k).mem h

lemma aerase_keys_nodup {l : List (String × α)} {k : String}
    (hnd : (l.map Prod.fst).Nodup) : ((aerase l k).map Prod.fst).Nodup :=
  hnd.sublist ((aerase_sublist l k).map Prod.fst)

lemma mem_aerase_of_ne {l : List (String × α)} {k : String} {q : String × α}
    (hq : q ∈ l) (h : q.1 ≠ k) : q ∈ aerase l k := by
  induction l with
  | nil => simp at hq
  | cons p ps ih =>
      by_cases hp : p.1 = k
      · simp only [aerase, List.eraseP_cons, decide_eq_true_eq, hp, if_pos rfl]
        rcases List.mem_cons.mp hq with hq | hq
        · exact absurd (hq ▸ hp) h
        · exact hq
      · simp only [aerase, List.eraseP_cons, decide_eq_true_eq, hp, if_neg hp]
        rcases List.mem_cons.mp hq with hq | hq
        · exact hq ▸ List.mem_cons_self p _
        · exact List.mem_cons_of_mem p (ih hq)

lemma not_key_of_mem_aerase {l : List (String × α)} {k : String} {q : String × α}
    (hnd : (l.map Prod.fst).Nodup) (h : q ∈ aerase l k) : q.1 ≠ k := by
  induction l with
  | nil => simp [aerase] at h
  | cons p ps ih =>
      simp only [List.map_cons, List.nodup_cons] at hnd
      by_cases hp : p.1 = k
      · rw [show aerase (p :: ps) k = ps by simp [aerase, hp]] at h
        intro hc
        exact hnd.1 (by rw [hp, ← hc]; exact List.mem_map_of_mem Prod.fst h)
      · rw [show aerase (p :: ps) k = p :: aerase ps k by
              simp [aerase, List.eraseP_cons, hp]] at h
        rcases List.mem_cons.mp h with h | h
        · exact h ▸ hp
        · exact ih hnd.2 h

lemma aerase_of_not_mem {l : List (String × α)} {k : String}
    (h : ∀ p ∈ l, p.1 ≠ k) : aerase l k = l := by
  induction l with
  | nil => rfl
  | cons p ps ih =>
      have hp := h p (List.mem_cons_self p ps)
      rw [show aerase (p :: ps) k = p :: aerase ps k by
            simp [aerase, List.eraseP_cons, hp],
          ih (fun q hq => h q (List.mem_cons_of_mem p hq))]

lemma aerase_append_singleton {l : List (String × α)} {k : String} (v : α)
    (h : ∀ p ∈ l, p.1 ≠ k) : aerase (l ++ [(k, v)]) k = l := by
  induction l with
  | nil => simp [aerase]
  | cons p ps ih =>
      have hp := h p (List.mem_cons_self p ps)
      rw [List.cons_append,
          show aerase (p :: (ps ++ [(k, v)])) k = p :: aerase (ps ++ [(k, v)]) k by
            simp [aerase, List.eraseP_cons, hp],
          ih (fun q hq => h q (List.mem_cons_of_mem p hq))]

lemma alookup_ne_none_of_mem {l : List (String × α)} {q : String × α}
    (hq : q ∈ l) : alookup l q.1 ≠ none := by
  rw [Ne, alookup_eq_none]
  intro h
  exact h q hq rfl

end ALookup

/-- Worker status literals (`models.py`). -/
inductive WStatus where
  | healthy
  | unhealthy
  | draining
deriving DecidableEq, Repr

/-- Dataclass `WorkerRecord` (`src/llm_gateway/controller/models.py`).
`metadata` is an opaque key/value mapping; timestamps are rationals. -/
structure WorkerRecord where
  worker_id : String
  model_id : String
  endpoint : String
  status : WStatus
  last_heartbeat : ℚ
  capacity : ℤ
  current_load : ℤ
  metadata : List (String × String)
  circuit_state : CBState
  failure_count : ℕ
  last_failure : Option ℚ
deriving DecidableEq, Repr

namespace WorkerRecord

/-- Property `WorkerRecord.load_ratio`: `current_load / capacity`, infinity
(`⊤`) when `capacity ≤ 0`. -/
def load_ratio (w : WorkerRecord) : WithTop ℚ :=
  if w.capacity ≤ 0 then ⊤
  else (((w.current_load : ℚ) / (w.capacity : ℚ) : ℚ) : WithTop ℚ)

end WorkerRecord

/-- Registry errors: `ValueError` on duplicate registration, `KeyError` on a
missing worker (spec taxonomy: `AlreadyRegistered`, `NotFound`). -/
inductive RegError where
  | AlreadyRegistered (worker_id : String)
  | NotFound (worker_id : String)
deriving DecidableEq, Repr

/-- The two indices of `WorkerRegistry`
(`src/llm_gateway/controller/registry.py`).  `by_id` plays the role of the
object heap: `by_model` buckets store worker ids, as the Python buckets
store references to the same record objects that `_by_id` holds. -/
structure WorkerRegistry where
  by_id : List (String × WorkerRecord)
  by_model : List (String × List String)
deriving DecidableEq, Repr

namespace WorkerRegistry

/-- The empty registry (`WorkerRegistry.__init__`). -/
def initRegistry : WorkerRegistry := { by_id := [], by_model := [] }

/-- Python dict insertion into a bucket of ids: fresh keys append, an
existing key keeps its position. -/
def bucketInsert (b : List String) (id : String) : List String :=
  if id ∈ b then b else b ++ [id]

/-- `WorkerRegistry.register_worker`: reject a duplicate `worker_id`, else
insert into both indices, creating the model bucket if needed. -/
def register_worker (S : WorkerRegistry) (record : WorkerRecord) :
    Except RegError WorkerRegistry :=
  match alookup S.by_id record.worker_id with
  | some _ => Except.error (RegError.AlreadyRegistered record.worker_id)
  | none =>
    let by_id' := S.by_id ++ [(record.worker_id, record)]
    let by_model' :=
      match alookup S.by_model record.model_id with
      | none => S.by_model ++ [(record.model_id, [record.worker_id])]
      | some b => aupdate S.by_model record.model_id (bucketInsert b record.worker_id)
    Except.ok { by_id := by_id', by_model := by_model' }

/-- The common removal path of `unregister_worker(force=True)` and
`remove_worker`: delete from `by_id`, drop the id from its model bucket,
and delete the bucket when it empties. -/
def deleteWorker (S : WorkerRegistry) (worker_id : String) (record : WorkerRecord) :
    WorkerRegistry :=
  { by_id := aerase S.by_id worker_id
    by_model :=
      match alookup S.by_model record.model_id with
      | none => S.by_model
      | some b =>
        let b' := b.erase worker_id
        if b' = [] then aerase S.by_model record.model_id
        else aupdate S.by_model record.model_id b' }

/-- `WorkerRegistry.unregister_worker`: `KeyError` when absent; `force`
removes from both indices, otherwise the record is marked `draining`. -/
def unregister_worker (S : WorkerRegistry) (worker_id : String) (force : Bool) :
    Except RegError WorkerRegistry :=
  match alookup S.by_id worker_id with
  | none => Except.error (RegError.NotFound worker_id)
  | some record =>
    if force then
      Except.ok (S.deleteWorker worker_id record)
    else
      Except.ok { S with
        by_id := aupdate S.by_id worker_id { record with status := WStatus.draining } }

/-- `WorkerRegistry.get_workers_for_model`: snapshot of the bucket's
records (empty list when the model is unknown). -/
def get_workers_for_model (S : WorkerRegistry) (model_id : String) :
    List WorkerRecord :=
  match alookup S.by_model model_id with
  | none => []
  | some b => b.filterMap (fun id => alookup S.by_id id)

/-- `WorkerRegistry.update_heartbeat`: `KeyError` when absent; stamps
`last_heartbeat` and overwrites `current_load` and `status`. -/
def update_heartbeat (S : WorkerRegistry) (worker_id : String)
    (current_load : ℤ) (status : WStatus) (now : ℚ) :
    Except RegError WorkerRegistry :=
  match alookup S.by_id worker_id with
  | none => Except.error (RegError.NotFound worker_id)
  | some record =>
    Except.ok { S with
      by_id := aupdate S.by_id worker_id
        { record with last_heartbeat := now, current_load := current_load,
                      status := status } }

/-- `WorkerRegistry.mark_unhealthy`: best-effort status change, no-op when
the worker is absent. -/
def mark_unhealthy (S : WorkerRegistry) (worker_id : String) : WorkerRegistry :=
  match alookup S.by_id worker_id with
  | none => S
  | some record =>
    { S with
      by_id := aupdate S.by_id worker_id { record with status := WStatus.unhealthy } }

/-- `WorkerRegistry.remove_worker`: unconditional delete, no-op when the
worker is absent. -/
def remove_worker (S : WorkerRegistry) (worker_id : String) : WorkerRegistry :=
  match alookup S.by_id worker_id with
  | none => S
  | some record => S.deleteWorker worker_id record

end WorkerRegistry

/-- The registry's index invariants (§3 of the spec): unique ids, every
`by_id` record keyed by its own `worker_id`, buckets non-empty and
duplicate-free, and the two indices mirroring each other. -/
def registryInv (S : WorkerRegistry) : Prop :=
  (S.by_id.map Prod.fst).Nodup ∧
  (S.by_model.map Prod.fst).Nodup ∧
  (∀ p ∈ S.by_id, p.2.worker_id = p.1) ∧
  (∀ q ∈ S.by_model, q.2 ≠ [] ∧ q.2.Nodup) ∧
  (∀ q ∈ S.by_model, ∀ id ∈ q.2,
     ∃ p ∈ S.by_id, p.1 = id ∧ p.2.model_id = q.1) ∧
  (∀ p ∈ S.by_id, ∃ q ∈ S.by_model, q.1 = p.2.model_id ∧ p.1 ∈ q.2)

instance (S : WorkerRegistry) : Decidable (registryInv S) := by
  unfold registryInv
  infer_instance

namespace ALookup

lemma key_not_mem_of_alookup_none {α : Type} {l : List (String × α)} {k : String}
    (h : alookup l k = none) : k ∉ l.map Prod.fst := by
  rw [alookup_eq_none] at h
  intro hc
  rcases List.mem_map.mp hc with ⟨p, hp, hpk⟩
  exact h p hp hpk

lemma nodup_keys_append {α : Type} {l : List (String × α)} {k : String} (v : α)
    (hnd : (l.map Prod.fst).Nodup) (h : alookup l k = none) :
    ((l ++ [(k, v)]).map Prod.fst).Nodup := by
  rw [List.map_append]
  refine hnd.append (List.nodup_singleton k) ?_
  intro a ha hb
  simp at hb
  exact key_not_mem_of_alookup_none h (hb ▸ ha)

end ALookup

open ALookup in
lemma registryInv_register {S : WorkerRegistry} {r : WorkerRecord}
    {S' : WorkerRegistry} (hInv : registryInv S)
    (h : S.register_worker r = Except.ok S') : registryInv S' := by
  obtain ⟨h1, h2, h3, h4, h5, h6⟩ := hInv
  unfold WorkerRegistry.register_worker at h
  cases hfresh : alookup S.by_id r.worker_id with
  | some w => rw [hfresh] at h; exact absurd h (by simp)
  | none =>
  rw [hfresh] at h
  simp only [Except.ok.injEq] at h
  have hwid : ∀ p ∈ S.by_id, p.1 ≠ r.worker_id := alookup_eq_none.mp hfresh
  cases hm : alookup S.by_model r.model_id with
  | none =>
      rw [hm] at h
      have hmkeys : ∀ q ∈ S.by_model, q.1 ≠ r.model_id := alookup_eq_none.mp hm
      subst h
      refine ⟨nodup_keys_append r h1 hfresh,
              nodup_keys_append [r.worker_id] h2 hm, ?_, ?_, ?_, ?_⟩
      · intro p hp
        rcases List.mem_append.mp hp with hp | hp
        · exact h3 p hp
        · rw [List.mem_singleton] at hp
          rw [hp]
      · intro q hq
        rcases List.mem_append.mp hq with hq | hq
        · exact h4 q hq
        · rw [List.mem_singleton] at hq
          rw [hq]
          exact ⟨by simp, List.nodup_singleton _⟩
      · intro q hq id hid
        rcases List.mem_append.mp hq with hq | hq
        · obtain ⟨p, hp, hpk, hpm⟩ := h5 q hq id hid
          exact ⟨p, List.mem_append_left _ hp, hpk, hpm⟩
        · rw [List.mem_singleton] at hq
          rw [hq] at hid ⊢
          rw [List.mem_singleton] at hid
          exact ⟨(r.worker_id, r), List.mem_append_right _ (List.mem_singleton_self _),
                 hid.symm, rfl⟩
      · intro p hp
        rcases List.mem_append.mp hp with hp | hp
        · obtain ⟨q, hq, hqm, hqid⟩ := h6 p hp
          exact ⟨q, List.mem_append_left _ hq, hqm, hqid⟩
        · rw [List.mem_singleton] at hp
          rw [hp]
          exact ⟨(r.model_id, [r.worker_id]),
                 List.mem_append_right _ (List.mem_singleton_self _), rfl,
                 List.mem_singleton_self _⟩
  | some b =>
      rw [hm] at h
      subst h
      have hbmem : (r.model_id, b) ∈ S.by_model := mem_of_alookup hm
      have hb := h4 _ hbmem
      have hwnotb : r.worker_id ∉ b := by
        intro hc
        obtain ⟨p, hp, hpk, _⟩ := h5 _ hbmem _ hc
        exact hwid p hp hpk
      show registryInv
        { by_id := S.by_id ++ [(r.worker_id, r)],
          by_model := aupdate S.by_model r.model_id
            (WorkerRegistry.bucketInsert b r.worker_id) }
      rw [show WorkerRegistry.bucketInsert b r.worker_id = b ++ [r.worker_id] by
            unfold WorkerRegistry.bucketInsert; rw [if_neg hwnotb]]
      refine ⟨nodup_keys_append r h1 hfresh, by rw [aupdate_keys]; exact h2,
              ?_, ?_, ?_, ?_⟩
      · intro p hp
        rcases List.mem_append.mp hp with hp | hp
        · exact h3 p hp
        · rw [List.mem_singleton] at hp
          rw [hp]
      · intro q hq
        rcases mem_aupdate hq with hq | ⟨hq, _⟩
        · rw [hq]
          refine ⟨by simp, hb.2.append (List.nodup_singleton _) ?_⟩
          intro a ha hs
          rw [List.mem_singleton] at hs
          exact hwnotb (hs ▸ ha)
        · exact h4 q hq
      · intro q hq id hid
        rcases mem_aupdate hq with hq | ⟨hq, hqne⟩
        · rw [hq] at hid ⊢
          rcases List.mem_append.mp hid with hid | hid
          · obtain ⟨p, hp, hpk, hpm⟩ := h5 _ hbmem id hid
            exact ⟨p, List.mem_append_left _ hp, hpk, hpm⟩
          · rw [List.mem_singleton] at hid
            exact ⟨(r.worker_id, r),
                   List.mem_append_right _ (List.mem_singleton_self _), hid.symm, rfl⟩
        · obtain ⟨p, hp, hpk, hpm⟩ := h5 q hq id hid
          exact ⟨p, List.mem_append_left _ hp, hpk, hpm⟩
      · intro p hp
        rcases List.mem_append.mp hp with hp | hp
        · obtain ⟨q, hq, hqm, hqid⟩ := h6 p hp
          by_cases hqm' : q.1 = r.model_id
          · have : q = (r.model_id, b) := keys_eq_of_mem h2 hq hbmem hqm'
            refine ⟨(r.model_id, b ++ [r.worker_id]),
                    mem_aupdate_self _ hbmem, ?_, ?_⟩
            · rw [← hqm]; rw [this]
            · rw [this] at hqid
              exact List.mem_append_left _ hqid
          · exact ⟨q, mem_aupdate_of_ne hq hqm', hqm, hqid⟩
        · rw [List.mem_singleton] at hp
          rw [hp]
          exact ⟨(r.model_id, b ++ [r.worker_id]), mem_aupdate_self _ hbmem, rfl,
                 List.mem_append_right _ (List.mem_singleton_self _)⟩

open ALookup in
lemma registryInv_aupdate_record {S : WorkerRegistry} {wid : String}
    {record r' : WorkerRecord} (hInv : registryInv S)
    (hlk : alookup S.by_id wid = some record)
    (hw : r'.worker_id = record.worker_id) (hm : r'.model_id = record.model_id) :
    registryInv { S with by_id := aupdate S.by_id wid r' } := by
  obtain ⟨h1, h2, h3, h4, h5, h6⟩ := hInv
  have hmem : (wid, record) ∈ S.by_id := mem_of_alookup hlk
  have hrk : record.worker_id = wid := h3 _ hmem
  refine ⟨by rw [aupdate_keys]; exact h1, h2, ?_, h4, ?_, ?_⟩
  · intro p hp
    rcases mem_aupdate hp with hp | ⟨hp, _⟩
    · rw [hp]
      rw [hw, hrk]
    · exact h3 p hp
  · intro q hq id hid
    obtain ⟨p, hp, hpk, hpm⟩ := h5 q hq id hid
    by_cases hpw : p.1 = wid
    · have hpe : p = (wid, record) := keys_eq_of_mem h1 hp hmem hpw
      refine ⟨(wid, r'), mem_aupdate_self r' hmem, hpw ▸ hpk, ?_⟩
      rw [hpe] at hpm
      simpa [hm] using hpm
    · exact ⟨p, mem_aupdate_of_ne hp hpw, hpk, hpm⟩
  · intro p hp
    rcases mem_aupdate hp with hp | ⟨hp, hpw⟩
    · obtain ⟨q, hq, hqm, hqid⟩ := h6 _ hmem
      rw [hp]
      exact ⟨q, hq, by rw [hqm]; simp [hm], hqid⟩
    · exact h6 p hp

open ALookup in
lemma registryInv_delete {S : WorkerRegistry} {wid : String}
    {record : WorkerRecord} (hInv : registryInv S)
    (hlk : alookup S.by_id wid = some record) :
    registryInv (S.deleteWorker wid record) := by
  obtain ⟨h1, h2, h3, h4, h5, h6⟩ := hInv
  have hmem : (wid, record) ∈ S.by_id := mem_of_alookup hlk
  obtain ⟨qb, hqb, hqbm, hqbw⟩ := h6 _ hmem
  have hqbe : qb = (record.model_id, qb.2) := by
    rw [← hqbm]
  have hbm : alookup S.by_model record.model_id = some qb.2 :=
    alookup_of_mem h2 (hqbe ▸ hqb)
  unfold WorkerRegistry.deleteWorker
  rw [hbm]
  show registryInv
    { by_id := aerase S.by_id wid,
      by_model :=
        if qb.2.erase wid = [] then aerase S.by_model record.model_id
        else aupdate S.by_model record.model_id (qb.2.erase wid) }
  have hbmem : (record.model_id, qb.2) ∈ S.by_model := hqbe ▸ hqb
  have hbfacts := h4 _ hbmem
  by_cases hb' : qb.2.erase wid = []
  · rw [if_pos hb']
    refine ⟨aerase_keys_nodup h1, aerase_keys_nodup h2,
            fun p hp => h3 p (mem_of_aerase hp), fun q hq => h4 q (mem_of_aerase hq),
            ?_, ?_⟩
    · intro q hq id hid
      have hqm : q.1 ≠ record.model_id := not_key_of_mem_aerase h2 hq
      obtain ⟨p, hp, hpk, hpm⟩ := h5 q (mem_of_aerase hq) id hid
      have hpw : p.1 ≠ wid := by
        intro hc
        have : p = (wid, record) := keys_eq_of_mem h1 hp hmem hc
        rw [this] at hpm
        exact hqm hpm.symm
      exact ⟨p, mem_aerase_of_ne hp hpw, hpk, hpm⟩
    · intro p hp
      have hpw : p.1 ≠ wid := not_key_of_mem_aerase h1 hp
      obtain ⟨q, hq, hqm, hqid⟩ := h6 p (mem_of_aerase hp)
      by_cases hqmm : q.1 = record.model_id
      · exfalso
        have : q = (record.model_id, qb.2) := keys_eq_of_mem h2 hq hbmem hqmm
        rw [this] at hqid
        have : p.1 ∈ qb.2.erase wid := (List.mem_erase_of_ne hpw).mpr hqid
        rw [hb'] at this
        simp at this
      · exact ⟨q, mem_aerase_of_ne hq hqmm, hqm, hqid⟩
  · rw [if_neg hb']
    refine ⟨aerase_keys_nodup h1, by rw [aupdate_keys]; exact h2,
            fun p hp => h3 p (mem_of_aerase hp), ?_, ?_, ?_⟩
    · intro q hq
      rcases mem_aupdate hq with hq | ⟨hq, _⟩
      · rw [hq]
        exact ⟨hb', hbfacts.2.erase wid⟩
      · exact h4 q hq
    · intro q hq id hid
      rcases mem_aupdate hq with hq | ⟨hq, hqne⟩
      · rw [hq] at hid ⊢
        have hid' : id ≠ wid ∧ id ∈ qb.2 :=
          (hbfacts.2.mem_erase_iff).mp hid
        obtain ⟨p, hp, hpk, hpm⟩ := h5 _ hbmem id hid'.2
        have hpw : p.1 ≠ wid := by rw [hpk]; exact hid'.1
        exact ⟨p, mem_aerase_of_ne hp hpw, hpk, hpm⟩
      · obtain ⟨p, hp, hpk, hpm⟩ := h5 q hq id hid
        have hpw : p.1 ≠ wid := by
          intro hc
          have : p = (wid, record) := keys_eq_of_mem h1 hp hmem hc
          rw [this] at hpm
          exact hqne (hpm ▸ rfl)
        exact ⟨p, mem_aerase_of_ne hp hpw, hpk, hpm⟩
    · intro p hp
      have hpw : p.1 ≠ wid := not_key_of_mem_aerase h1 hp
      obtain ⟨q, hq, hqm, hqid⟩ := h6 p (mem_of_aerase hp)
      by_cases hqmm : q.1 = record.model_id
      · have hqe : q = (record.model_id, qb.2) := keys_eq_of_mem h2 hq hbmem hqmm
        refine ⟨(record.model_id, qb.2.erase wid), mem_aupdate_self _ hbmem, ?_, ?_⟩
        · rw [← hqm, hqe]
        · rw [hqe] at hqid
          exact (List.mem_erase_of_ne hpw).mpr hqid
      · exact ⟨q, mem_aupdate_of_ne hq hqmm, hqm, hqid⟩

/-- C4: every registry operation preserves the index invariants — records
in `by_id` are mirrored (as object references) in their model bucket and
vice versa, buckets are never empty, keys are duplicate-free — and
registering an already-present `worker_id` fails with `AlreadyRegistered`,
producing no new state. -/
theorem registry_C4_invariants (S : WorkerRegistry) (hInv : registryInv S) :
    (∀ (r : WorkerRecord) (S' : WorkerRegistry),
       S.register_worker r = Except.ok S' → registryInv S') ∧
    (∀ r : WorkerRecord, alookup S.by_id r.worker_id ≠ none →
       S.register_worker r = Except.error (RegError.AlreadyRegistered r.worker_id)) ∧
    (∀ (id : String) (force : Bool) (S' : WorkerRegistry),
       S.unregister_worker id force = Except.ok S' → registryInv S') ∧
    (∀ (id : String) (load : ℤ) (st : WStatus) (now : ℚ) (S' : WorkerRegistry),
       S.update_heartbeat id load st now = Except.ok S' → registryInv S') ∧
    (∀ id : String, registryInv (S.mark_unhealthy id)) ∧
    (∀ id : String, registryInv (S.remove_worker id)) := by
  refine ⟨fun r S' h => registryInv_register hInv h, ?_, ?_, ?_, ?_, ?_⟩
  · intro r h
    unfold WorkerRegistry.register_worker
    cases hl : alookup S.by_id r.worker_id with
    | none => exact absurd hl h
    | some w => rfl
  · intro id force S' h
    unfold WorkerRegistry.unregister_worker at h
    cases hl : alookup S.by_id id with
    | none => rw [hl] at h; exact absurd h (by simp)
    | some record =>
        rw [hl] at h
        by_cases hf : force = true
        · simp only [hf, if_true, Except.ok.injEq] at h
          exact h ▸ registryInv_delete hInv hl
        · simp only [hf] at h
          rw [if_neg (by simp)] at h
          simp only [Except.ok.injEq] at h
          exact h ▸ registryInv_aupdate_record hInv hl rfl rfl
  · intro id load st now S' h
    unfold WorkerRegistry.update_heartbeat at h
    cases hl : alookup S.by_id id with
    | none => rw [hl] at h; exact absurd h (by simp)
    | some record =>
        rw [hl] at h
        simp only [Except.ok.injEq] at h
        exact h ▸ registryInv_aupdate_record hInv hl rfl rfl
  · intro id
    unfold WorkerRegistry.mark_unhealthy
    cases hl : alookup S.by_id id with
    | none => exact hInv
    | some record => exact registryInv_aupdate_record hInv hl rfl rfl
  · intro id
    unfold WorkerRegistry.remove_worker
    cases hl : alookup S.by_id id with
    | none => exact hInv
    | some record => exact registryInv_delete hInv hl

/-- A concrete healthy worker used by witnesses. -/
def sampleWorker : WorkerRecord :=
  { worker_id := "w1", model_id := "llama3", endpoint := "http://worker-1:9001",
    status := WStatus.healthy, last_heartbeat := 0, capacity := 10,
    current_load := 0, metadata := [], circuit_state := CBState.closed,
    failure_count := 0, last_failure := none }

/-- A concrete registry holding `sampleWorker` under model `llama3`. -/
def sampleRegistry : WorkerRegistry :=
  { by_id := [("w1", sampleWorker)], by_model := [("llama3", ["w1"])] }

/-- Witness for C4 on a one-worker registry: the invariant survives
`mark_unhealthy` and a duplicate registration is rejected. -/
theorem registry_C4_invariants_witness :
    registryInv (sampleRegistry.mark_unhealthy "w1") ∧
    sampleRegistry.register_worker sampleWorker =
      Except.error (RegError.AlreadyRegistered "w1") :=
  ⟨(registry_C4_invariants sampleRegistry (by decide)).2.2.2.2.1 "w1",
   (registry_C4_invariants sampleRegistry (by decide)).2.1 sampleWorker (by decide)⟩

/-- C7: for a registry satisfying the invariants in which `r.worker_id` is
absent, `register(r)` followed by `unregister(r.worker_id, force = True)`
restores the registry exactly — `by_id` and `by_model` regain their
pre-registration contents, a bucket created by the registration being
deleted again. -/
theorem registry_C7_roundtrip (S : WorkerRegistry) (r : WorkerRecord)
    (hInv : registryInv S) (hfresh : alookup S.by_id r.worker_id = none) :
    (S.register_worker r).bind
      (fun S1 => S1.unregister_worker r.worker_id true) = Except.ok S := by
  obtain ⟨h1, h2, h3, h4, h5, h6⟩ := hInv
  have hwid : ∀ p ∈ S.by_id, p.1 ≠ r.worker_id := ALookup.alookup_eq_none.mp hfresh
  obtain ⟨bid, bm⟩ := S
  cases hm : alookup bm r.model_id with
  | none =>
      have hmkeys : ∀ q ∈ bm, q.1 ≠ r.model_id := ALookup.alookup_eq_none.mp hm
      have hreg : WorkerRegistry.register_worker ⟨bid, bm⟩ r =
          Except.ok ⟨bid ++ [(r.worker_id, r)], bm ++ [(r.model_id, [r.worker_id])]⟩ := by
        simp only [WorkerRegistry.register_worker, hfresh, hm]
      rw [hreg]
      simp only [Except.bind]
      have hlk : alookup (bid ++ [(r.worker_id, r)]) r.worker_id = some r :=
        ALookup.alookup_append_self r hfresh
      have hbm1 : alookup (bm ++ [(r.model_id, [r.worker_id])]) r.model_id =
          some [r.worker_id] := ALookup.alookup_append_self [r.worker_id] hm
      simp only [WorkerRegistry.unregister_worker, WorkerRegistry.deleteWorker,
                 hlk, hbm1, reduceIte, List.erase_cons_head]
      rw [ALookup.aerase_append_singleton r hwid,
          ALookup.aerase_append_singleton [r.worker_id] hmkeys]
  | some b =>
      have hbmem : (r.model_id, b) ∈ bm := ALookup.mem_of_alookup hm
      have hwnotb : r.worker_id ∉ b := by
        intro hc
        obtain ⟨p, hp, hpk, _⟩ := h5 _ hbmem _ hc
        exact hwid p hp hpk
      have hbne : b ≠ [] := (h4 _ hbmem).1
      have hreg : WorkerRegistry.register_worker ⟨bid, bm⟩ r =
          Except.ok ⟨bid ++ [(r.worker_id, r)],
                     aupdate bm r.model_id (b ++ [r.worker_id])⟩ := by
        simp only [WorkerRegistry.register_worker, hfresh, hm]
        rw [show WorkerRegistry.bucketInsert b r.worker_id = b ++ [r.worker_id] by
              unfold WorkerRegistry.bucketInsert; rw [if_neg hwnotb]]
      rw [hreg]
      simp only [Except.bind]
      have hlk : alookup (bid ++ [(r.worker_id, r)]) r.worker_id = some r :=
        ALookup.alookup_append_self r hfresh
      have hbm1 : alookup (aupdate bm r.model_id (b ++ [r.worker_id])) r.model_id =
          some (b ++ [r.worker_id]) := ALookup.alookup_aupdate_self _ hm
      have herase : (b ++ [r.worker_id]).erase r.worker_id = b := by
        rw [List.erase_append_right _ hwnotb, List.erase_cons_head,
            List.append_nil]
      simp only [WorkerRegistry.unregister_worker, WorkerRegistry.deleteWorker,
                 hlk, hbm1, reduceIte, herase]
      rw [if_neg hbne, ALookup.aupdate_aupdate, ALookup.aupdate_self h2 hm,
          ALookup.aerase_append_singleton r hwid]

/-- Witness for C7: registering a second worker for a fresh model into the
one-worker sample registry and force-unregistering it restores the original
registry. -/
theorem registry_C7_roundtrip_witness :
    (sampleRegistry.register_worker
        { sampleWorker with worker_id := "w2", model_id := "mistral" }).bind
      (fun S1 => S1.unregister_worker "w2" true) = Except.ok sampleRegistry :=
  registry_C7_roundtrip sampleRegistry
    { sampleWorker with worker_id := "w2", model_id := "mistral" }
    (by decide) (by decide)

/-- Router errors (`src/llm_gateway/controller/router.py`):
`NoWorkerAvailableError` (404) and `AllWorkersAtCapacityError` (503). -/
inductive RouterError where
  | NoWorkerAvailableError (model_id : String)
  | AllWorkersAtCapacityError (model_id : String)
deriving DecidableEq, Repr

/-- The router's lazily populated `worker_id → CircuitBreaker` mapping. -/
abbrev CBMap := List (String × CircuitBreaker)

/-- `Router._get_circuit_breaker`: find the worker's breaker, creating a
default one (`F = 5`, `T = 30`) on first sight; returns the breaker and the
possibly extended map. -/
def get_circuit_breaker (m : CBMap) (worker_id : String) (now : ℚ) :
    CircuitBreaker × CBMap :=
  match alookup m worker_id with
  | some cb => (cb, m)
  | none =>
      let cb := CircuitBreaker.init 5 30 now
      (cb, m ++ [(worker_id, cb)])

/-- The availability filter loop of `Router.select_worker`: for each worker
consult (and possibly mutate) its breaker, keeping workers whose breaker
answers true and whose status is healthy. -/
def selectLoop (now : ℚ) :
    List WorkerRecord → List WorkerRecord → CBMap → List WorkerRecord × CBMap
  | [], acc, m => (acc, m)
  | w :: rest, acc, m =>
      let gc := get_circuit_breaker m w.worker_id now
      let av := gc.1.is_available now
      let m2 := aupdate gc.2 w.worker_id av.2
      let acc' := if av.1 = true ∧ w.status = WStatus.healthy then acc ++ [w] else acc
      selectLoop now rest acc' m2

/-- Python's `min(xs, key=...)`: fold keeping the first element whose key
is strictly smaller than the incumbent's. -/
def pyMin {α : Type} (key : α → WithTop ℚ) (x : α) (xs : List α) : α :=
  xs.foldl (fun best w => if key w < key best then w else best) x

/-- `Router.select_worker`: snapshot the model's workers, filter by breaker
availability and healthy status, filter by spare capacity, and return the
least-loaded worker by `load_ratio`, threading the breaker map. -/
def select_worker (now : ℚ) (model_id : String) (S : WorkerRegistry) (m : CBMap) :
    Except RouterError (WorkerRecord × CBMap) :=
  let workers := S.get_workers_for_model model_id
  if workers = [] then Except.error (RouterError.NoWorkerAvailableError model_id)
  else
    let r := selectLoop now workers [] m
    let available_workers := r.1
    if available_workers = [] then
      Except.error (RouterError.NoWorkerAvailableError model_id)
    else
      let at_capacity :=
        available_workers.filter (fun w => decide (w.current_load < w.capacity))
      if hat : at_capacity = [] then
        Except.error (RouterError.AllWorkersAtCapacityError model_id)
      else
        Except.ok (pyMin WorkerRecord.load_ratio (at_capacity.head hat)
                     at_capacity.tail, r.2)

/-- Whether `select_worker` would keep worker `w` on breaker map `m`: its
breaker (created if absent) answers available and its status is healthy. -/
def worker_available (now : ℚ) (m : CBMap) (w : WorkerRecord) : Bool :=
  (((get_circuit_breaker m w.worker_id now).1.is_available now).1 &&
    decide (w.status = WStatus.healthy))

namespace CircuitBreaker

lemma is_available_not_open (b : CircuitBreaker) (now : ℚ)
    (h : b.state ≠ CBState.«open») : b.is_available now = (true, b) := by
  unfold is_available
  cases hs : b.state with
  | closed => rw [if_pos rfl]
  | «open» => exact absurd hs h
  | half_open => rw [if_neg (by simp), if_neg (by simp)]

lemma is_available_true_not_open (b : CircuitBreaker) (now : ℚ)
    (h : (b.is_available now).1 = true) :
    (b.is_available now).2.state ≠ CBState.«open» := by
  unfold is_available at h ⊢
  by_cases h1 : b.state = CBState.closed
  · rw [if_pos h1]
    simp [h1]
  · rw [if_neg h1] at h ⊢
    by_cases h2 : b.state = CBState.«open»
    · rw [if_pos h2] at h ⊢
      by_cases h3 : b.should_attempt_recovery now = true
      · rw [if_pos h3]
        simp [transition_to]
      · rw [if_neg h3] at h
        simp at h
    · rw [if_neg h2] at h ⊢
      cases hs : b.state with
      | closed => exact absurd hs h1
      | «open» => exact absurd hs h2
      | half_open => simp [hs]

lemma is_available_keeps_not_open (b : CircuitBreaker) (now : ℚ)
    (h : b.state ≠ CBState.«open») :
    (b.is_available now).2.state ≠ CBState.«open» := by
  rw [is_available_not_open b now h]
  exact h

end CircuitBreaker

lemma step_map_self (m : CBMap) (wid : String) (now : ℚ) (cb' : CircuitBreaker) :
    alookup (aupdate (get_circuit_breaker m wid now).2 wid cb') wid = some cb' := by
  unfold get_circuit_breaker
  cases h : alookup m wid with
  | some cb => exact ALookup.alookup_aupdate_self cb' h
  | none =>
      exact ALookup.alookup_aupdate_self cb'
        (ALookup.alookup_append_self (CircuitBreaker.init 5 30 now) h)

lemma step_map_other (m : CBMap) (wid : String) (now : ℚ) (cb' : CircuitBreaker)
    {id' : String} (h : id' ≠ wid) :
    alookup (aupdate (get_circuit_breaker m wid now).2 wid cb') id' = alookup m id' := by
  unfold get_circuit_breaker
  cases hm : alookup m wid with
  | some cb => exact ALookup.alookup_aupdate_ne cb' (Ne.symm h)
  | none =>
      rw [ALookup.alookup_aupdate_ne cb' (Ne.symm h),
          ALookup.alookup_append_ne (CircuitBreaker.init 5 30 now) (Ne.symm h)]

lemma worker_available_congr {m1 m2 : CBMap} {w : WorkerRecord} {now : ℚ}
    (h : alookup m1 w.worker_id = alookup m2 w.worker_id) :
    worker_available now m1 w = worker_available now m2 w := by
  unfold worker_available get_circuit_breaker
  rw [h]
  cases alookup m2 w.worker_id <;> rfl

lemma selectLoop_cons (now : ℚ) (w : WorkerRecord) (rest acc : List WorkerRecord)
    (m : CBMap) :
    selectLoop now (w :: rest) acc m =
      selectLoop now rest
        (if (((get_circuit_breaker m w.worker_id now).1.is_available now).1 = true ∧
             w.status = WStatus.healthy) then acc ++ [w] else acc)
        (aupdate (get_circuit_breaker m w.worker_id now).2 w.worker_id
          ((get_circuit_breaker m w.worker_id now).1.is_available now).2) := rfl

lemma selectLoop_avail (now : ℚ) : ∀ (ws : List WorkerRecord)
    (acc : List WorkerRecord) (m : CBMap),
    (ws.map WorkerRecord.worker_id).Nodup →
    (selectLoop now ws acc m).1 =
      acc ++ ws.filter (fun w => worker_available now m w) := by
  intro ws
  induction ws with
  | nil => intro acc m _; simp [selectLoop]
  | cons w rest ih =>
      intro acc m hnd
      rw [List.map_cons, List.nodup_cons] at hnd
      rw [selectLoop_cons]
      rw [ih _ _ hnd.2]
      have hcongr : rest.filter
          (fun w' => worker_available now
            (aupdate (get_circuit_breaker m w.worker_id now).2 w.worker_id
              ((get_circuit_breaker m w.worker_id now).1.is_available now).2) w') =
          rest.filter (fun w' => worker_available now m w') := by
        apply List.filter_congr
        intro w' hw'
        apply worker_available_congr
        apply step_map_other
        intro hc
        exact hnd.1 (hc ▸ List.mem_map_of_mem WorkerRecord.worker_id hw')
      rw [hcongr]
      by_cases hw : worker_available now m w = true
      · have hcond : (((get_circuit_breaker m w.worker_id now).1.is_available now).1
            = true ∧ w.status = WStatus.healthy) := by
          unfold worker_available at hw
          simpa using hw
        rw [if_pos hcond, List.filter_cons_of_pos (by simpa using hw),
            List.append_assoc]
        rfl
      · have hcond : ¬ (((get_circuit_breaker m w.worker_id now).1.is_available now).1
            = true ∧ w.status = WStatus.healthy) := by
          unfold worker_available at hw
          intro hc
          exact hw (by simp [hc.1, hc.2])
        rw [if_neg hcond, List.filter_cons_of_neg (by simpa using hw)]

lemma selectLoop_not_open (now : ℚ) : ∀ (ws acc : List WorkerRecord) (m : CBMap),
    (∀ w ∈ acc, ∃ cb, alookup m w.worker_id = some cb ∧ cb.state ≠ CBState.«open») →
    ∀ w ∈ (selectLoop now ws acc m).1,
      ∃ cb, alookup (selectLoop now ws acc m).2 w.worker_id = some cb ∧
        cb.state ≠ CBState.«open» := by
  intro ws
  induction ws with
  | nil => intro acc m hacc; exact hacc
  | cons w rest ih =>
      intro acc m hacc
      rw [selectLoop_cons]
      apply ih
      intro w' hw'
      by_cases hcond : (((get_circuit_breaker m w.worker_id now).1.is_available now).1
          = true ∧ w.status = WStatus.healthy)
      · rw [if_pos hcond] at hw'
        rcases List.mem_append.mp hw' with hw' | hw'
        · obtain ⟨cb, hcb, hno⟩ := hacc w' hw'
          by_cases hid : w'.worker_id = w.worker_id
          · refine ⟨((get_circuit_breaker m w.worker_id now).1.is_available now).2,
                    by rw [hid]; exact step_map_self m w.worker_id now _, ?_⟩
            have hgc : (get_circuit_breaker m w.worker_id now).1 = cb := by
              unfold get_circuit_breaker
              rw [← hid, hcb]
            rw [hgc]
            exact CircuitBreaker.is_available_keeps_not_open cb now hno
          · exact ⟨cb, by rw [step_map_other m w.worker_id now _ hid]; exact hcb, hno⟩
        · rw [List.mem_singleton] at hw'
          subst hw'
          refine ⟨((get_circuit_breaker m w'.worker_id now).1.is_available now).2,
                  step_map_self m w'.worker_id now _, ?_⟩
          exact CircuitBreaker.is_available_true_not_open _ now hcond.1
      · rw [if_neg hcond] at hw'
        obtain ⟨cb, hcb, hno⟩ := hacc w' hw'
        by_cases hid : w'.worker_id = w.worker_id
        · refine ⟨((get_circuit_breaker m w.worker_id now).1.is_available now).2,
                  by rw [hid]; exact step_map_self m w.worker_id now _, ?_⟩
          have hgc : (get_circuit_breaker m w.worker_id now).1 = cb := by
            unfold get_circuit_breaker
            rw [← hid, hcb]
          rw [hgc]
          exact CircuitBreaker.is_available_keeps_not_open cb now hno
        · exact ⟨cb, by rw [step_map_other m w.worker_id now _ hid]; exact hcb, hno⟩

lemma pyMin_mem {α : Type} (key : α → WithTop ℚ) :
    ∀ (xs : List α) (x : α), pyMin key x xs ∈ x :: xs := by
  intro xs
  induction xs with
  | nil => intro x; simp [pyMin]
  | cons w ws ih =>
      intro x
      rw [show pyMin key x (w :: ws) =
            pyMin key (if key w < key x then w else x) ws from rfl]
      by_cases hlt : key w < key x
      · rw [if_pos hlt]
        rcases List.mem_cons.mp (ih w) with h | h
        · rw [h]
          exact List.mem_cons_of_mem _ (List.mem_cons_self _ _)
        · exact List.mem_cons_of_mem _ (List.mem_cons_of_mem _ h)
      · rw [if_neg hlt]
        rcases List.mem_cons.mp (ih x) with h | h
        · rw [h]
          exact List.mem_cons_self _ _
        · exact List.mem_cons_of_mem _ (List.mem_cons_of_mem _ h)

lemma pyMin_le {α : Type} (key : α → WithTop ℚ) :
    ∀ (xs : List α) (x y : α), y ∈ x :: xs → key (pyMin key x xs) ≤ key y := by
  intro xs
  induction xs with
  | nil =>
      intro x y hy
      rw [List.mem_singleton] at hy
      subst hy
      simp [pyMin]
  | cons w ws ih =>
      intro x y hy
      rw [show pyMin key x (w :: ws) =
            pyMin key (if key w < key x then w else x) ws from rfl]
      have hzx : key (if key w < key x then w else x) ≤ key x := by
        by_cases hlt : key w < key x
        · rw [if_pos hlt]; exact le_of_lt hlt
        · rw [if_neg hlt]
      have hzw : key (if key w < key x then w else x) ≤ key w := by
        by_cases hlt : key w < key x
        · rw [if_pos hlt]
        · rw [if_neg hlt]; exact le_of_not_lt hlt
      have hself := ih (if key w < key x then w else x)
        (if key w < key x then w else x) (List.mem_cons_self _ _)
      rcases List.mem_cons.mp hy with hy | hy
      · subst hy
        exact le_trans hself hzx
      · rcases List.mem_cons.mp hy with hy | hy
        · subst hy
          exact le_trans hself hzw
        · exact ih _ y (List.mem_cons_of_mem _ hy)

open ALookup in
lemma filterMap_alookup_ids (byid : List (String × WorkerRecord)) :
    ∀ b : List String,
    (∀ id ∈ b, ∃ w, alookup byid id = some w ∧ w.worker_id = id) →
    (b.filterMap (fun id => alookup byid id)).map WorkerRecord.worker_id = b := by
  intro b
  induction b with
  | nil => intro _; rfl
  | cons id ids ih =>
      intro h
      obtain ⟨w, hw, hwid⟩ := h id (List.mem_cons_self id ids)
      rw [List.filterMap_cons, hw, List.map_cons, hwid,
          ih (fun i hi => h i (List.mem_cons_of_mem id hi))]

open ALookup in
lemma get_workers_ids {S : WorkerRegistry} (hInv : registryInv S)
    (model_id : String) :
    ((S.get_workers_for_model model_id).map WorkerRecord.worker_id).Nodup := by
  obtain ⟨h1, h2, h3, h4, h5, h6⟩ := hInv
  unfold WorkerRegistry.get_workers_for_model
  cases hm : alookup S.by_model model_id with
  | none => simp
  | some b =>
      have hbmem : (model_id, b) ∈ S.by_model := mem_of_alookup hm
      rw [filterMap_alookup_ids S.by_id b ?_]
      · exact (h4 _ hbmem).2
      · intro id hid
        obtain ⟨p, hp, hpk, _⟩ := h5 _ hbmem id hid
        refine ⟨p.2, ?_, by rw [h3 p hp, hpk]⟩
        rw [← hpk]
        exact alookup_of_mem h1 hp

/-- C1: `select_worker` fails `NoWorkerAvailableError` when the model has no
workers or none is both healthy and breaker-available; fails
`AllWorkersAtCapacityError` when available workers exist but all have
`current_load ≥ capacity`; and otherwise returns an available worker with
spare capacity whose `load_ratio` is minimal among such workers. -/
theorem router_C1_least_loaded (now : ℚ) (model_id : String) (S : WorkerRegistry)
    (m : CBMap) (hInv : registryInv S) :
    ((S.get_workers_for_model model_id = [] ∨
      ∀ w ∈ S.get_workers_for_model model_id, worker_available now m w = false) →
      select_worker now model_id S m =
        Except.error (RouterError.NoWorkerAvailableError model_id)) ∧
    (((∃ w ∈ S.get_workers_for_model model_id, worker_available now m w = true) ∧
      (∀ w ∈ S.get_workers_for_model model_id,
        worker_available now m w = true → ¬ w.current_load < w.capacity)) →
      select_worker now model_id S m =
        Except.error (RouterError.AllWorkersAtCapacityError model_id)) ∧
    ((∃ w ∈ S.get_workers_for_model model_id,
        worker_available now m w = true ∧ w.current_load < w.capacity) →
      ∃ w cbm, select_worker now model_id S m = Except.ok (w, cbm) ∧
        w ∈ S.get_workers_for_model model_id ∧
        worker_available now m w = true ∧ w.current_load < w.capacity ∧
        ∀ u ∈ S.get_workers_for_model model_id,
          worker_available now m u = true → u.current_load < u.capacity →
          w.load_ratio ≤ u.load_ratio) := by
  have hnd := get_workers_ids hInv model_id
  have havail : (selectLoop now (S.get_workers_for_model model_id) [] m).1 =
      (S.get_workers_for_model model_id).filter
        (fun w => worker_available now m w) := by
    rw [selectLoop_avail now _ [] m hnd, List.nil_append]
  refine ⟨?_, ?_, ?_⟩
  · intro hcase
    by_cases hws : S.get_workers_for_model model_id = []
    · simp only [select_worker]
      rw [if_pos hws]
    · rcases hcase with hc | hc
      · exact absurd hc hws
      have hr1 : (selectLoop now (S.get_workers_for_model model_id) [] m).1 = [] := by
        rw [havail, List.filter_eq_nil_iff]
        intro a ha
        simp [hc a ha]
      simp only [select_worker]
      rw [if_neg hws, hr1, if_pos rfl]
  · rintro ⟨⟨w0, hw0, hw0avail⟩, hallcap⟩
    have hws : S.get_workers_for_model model_id ≠ [] := List.ne_nil_of_mem hw0
    have hr1ne : (selectLoop now (S.get_workers_for_model model_id) [] m).1 ≠ [] := by
      rw [havail]
      exact List.ne_nil_of_mem (List.mem_filter.mpr ⟨hw0, hw0avail⟩)
    have hcap : (selectLoop now (S.get_workers_for_model model_id) [] m).1.filter
        (fun w => decide (w.current_load < w.capacity)) = [] := by
      rw [havail, List.filter_eq_nil_iff]
      intro u hu
      have hu' := List.mem_filter.mp hu
      simpa using hallcap u hu'.1 hu'.2
    simp only [select_worker]
    rw [if_neg hws, if_neg hr1ne, dif_pos hcap]
  · rintro ⟨w0, hw0, hw0avail, hw0cap⟩
    have hws : S.get_workers_for_model model_id ≠ [] := List.ne_nil_of_mem hw0
    have hw0mem1 : w0 ∈ (selectLoop now (S.get_workers_for_model model_id) [] m).1 := by
      rw [havail]
      exact List.mem_filter.mpr ⟨hw0, hw0avail⟩
    have hr1ne : (selectLoop now (S.get_workers_for_model model_id) [] m).1 ≠ [] :=
      List.ne_nil_of_mem hw0mem1
    have hw0mem2 : w0 ∈ (selectLoop now (S.get_workers_for_model model_id) [] m).1.filter
        (fun w => decide (w.current_load < w.capacity)) :=
      List.mem_filter.mpr ⟨hw0mem1, by simpa using hw0cap⟩
    have hcapne : (selectLoop now (S.get_workers_for_model model_id) [] m).1.filter
        (fun w => decide (w.current_load < w.capacity)) ≠ [] :=
      List.ne_nil_of_mem hw0mem2
    refine ⟨pyMin WorkerRecord.load_ratio
              (((selectLoop now (S.get_workers_for_model model_id) [] m).1.filter
                (fun w => decide (w.current_load < w.capacity))).head hcapne)
              ((selectLoop now (S.get_workers_for_model model_id) [] m).1.filter
                (fun w => decide (w.current_load < w.capacity))).tail,
            (selectLoop now (S.get_workers_for_model model_id) [] m).2,
            ?_, ?_, ?_, ?_, ?_⟩
    · simp only [select_worker]
      rw [if_neg hws, if_neg hr1ne, dif_neg hcapne]
    all_goals {
      have hmemcap : pyMin WorkerRecord.load_ratio
          (((selectLoop now (S.get_workers_for_model model_id) [] m).1.filter
            (fun w => decide (w.current_load < w.capacity))).head hcapne)
          ((selectLoop now (S.get_workers_for_model model_id) [] m).1.filter
            (fun w => decide (w.current_load < w.capacity))).tail ∈
          (selectLoop now (S.get_workers_for_model model_id) [] m).1.filter
            (fun w => decide (w.current_load < w.capacity)) := by
        have h := pyMin_mem WorkerRecord.load_ratio
          (((selectLoop now (S.get_workers_for_model model_id) [] m).1.filter
            (fun w => decide (w.current_load < w.capacity))).tail)
          (((selectLoop now (S.get_workers_for_model model_id) [] m).1.filter
            (fun w => decide (w.current_load < w.capacity))).head hcapne)
        rwa [List.head_cons_tail] at h
      set wmin := pyMin WorkerRecord.load_ratio
          (((selectLoop now (S.get_workers_for_model model_id) [] m).1.filter
            (fun w => decide (w.current_load < w.capacity))).head hcapne)
          ((selectLoop now (S.get_workers_for_model model_id) [] m).1.filter
            (fun w => decide (w.current_load < w.capacity))).tail with hwmin
      have hmc := List.mem_filter.mp hmemcap
      have hmc1 := hmc.1
      rw [havail] at hmc1
      have hmr := List.mem_filter.mp hmc1
      first
      | exact hmr.1
      | exact hmr.2
      | exact (by simpa using hmc.2)
      | {
          intro u hu huavail hucap
          have humem : u ∈
              (selectLoop now (S.get_workers_for_model model_id) [] m).1.filter
                (fun w => decide (w.current_load < w.capacity)) :=
            List.mem_filter.mpr ⟨(by
              rw [havail]
              exact List.mem_filter.mpr ⟨hu, huavail⟩), by simpa using hucap⟩
          have h := pyMin_le WorkerRecord.load_ratio
            (((selectLoop now (S.get_workers_for_model model_id) [] m).1.filter
              (fun w => decide (w.current_load < w.capacity))).tail)
            (((selectLoop now (S.get_workers_for_model model_id) [] m).1.filter
              (fun w => decide (w.current_load < w.capacity))).head hcapne)
            u (by rw [List.head_cons_tail]; exact humem)
          exact h
        }
    }

/-- C6: whenever `select_worker` returns a worker, that worker's breaker in
the returned breaker map is not `open` — it is `closed` or `half_open`, the
`open → half_open` transition having happened inside `is_available`. -/
theorem router_C6_no_open_breaker (now : ℚ) (model_id : String)
    (S : WorkerRegistry) (m : CBMap) (w : WorkerRecord) (cbm : CBMap)
    (h : select_worker now model_id S m = Except.ok (w, cbm)) :
    ∃ cb, alookup cbm w.worker_id = some cb ∧ cb.state ≠ CBState.«open» := by
  simp only [select_worker] at h
  by_cases h0 : S.get_workers_for_model model_id = []
  · rw [if_pos h0] at h
    exact absurd h (by simp)
  rw [if_neg h0] at h
  by_cases h1 : (selectLoop now (S.get_workers_for_model model_id) [] m).1 = []
  · rw [if_pos h1] at h
    exact absurd h (by simp)
  rw [if_neg h1] at h
  by_cases h2 : (selectLoop now (S.get_workers_for_model model_id) [] m).1.filter
      (fun u => decide (u.current_load < u.capacity)) = []
  · rw [dif_pos h2] at h
    exact absurd h (by simp)
  rw [dif_neg h2] at h
  have h' := Except.ok.inj h
  have hw := congrArg Prod.fst h'
  have hcbm := congrArg Prod.snd h'
  dsimp only at hw hcbm
  subst hw
  subst hcbm
  apply selectLoop_not_open now (S.get_workers_for_model model_id) [] m
    (by intro u hu; simp at hu)
  have hmem := pyMin_mem WorkerRecord.load_ratio
    (((selectLoop now (S.get_workers_for_model model_id) [] m).1.filter
      (fun u => decide (u.current_load < u.capacity))).tail)
    (((selectLoop now (S.get_workers_for_model model_id) [] m).1.filter
      (fun u => decide (u.current_load < u.capacity))).head h2)
  rw [List.head_cons_tail] at hmem
  exact (List.mem_filter.mp hmem).1

/-- The sample worker under load 5 (scenario S1's `w1`). -/
def workerW1 : WorkerRecord := { sampleWorker with current_load := 5 }

/-- The sample worker's sibling under load 2 (scenario S1's `w2`). -/
def workerW2 : WorkerRecord := { sampleWorker with worker_id := "w2", current_load := 2 }

/-- A registry offering both `w1` and `w2` for model `llama3`. -/
def twoWorkerRegistry : WorkerRegistry :=
  { by_id := [("w1", workerW1), ("w2", workerW2)],
    by_model := [("llama3", ["w1", "w2"])] }

/-- Witness for C1 (scenario S1): with `w1` at load 5 and `w2` at load 2,
selection succeeds and returns a least-loaded available worker. -/
theorem router_C1_least_loaded_witness :
    ∃ w cbm, select_worker 0 "llama3" twoWorkerRegistry [] = Except.ok (w, cbm) ∧
      w ∈ twoWorkerRegistry.get_workers_for_model "llama3" ∧
      worker_available 0 [] w = true ∧ w.current_load < w.capacity ∧
      ∀ u ∈ twoWorkerRegistry.get_workers_for_model "llama3",
        worker_available 0 [] u = true → u.current_load < u.capacity →
        w.load_ratio ≤ u.load_ratio :=
  (router_C1_least_loaded 0 "llama3" twoWorkerRegistry [] (by decide)).2.2
    ⟨workerW2, by decide, by decide, by decide⟩

/-- Witness for C6: selecting from the one-worker sample registry returns
`w1`, whose freshly created breaker is `closed` in the returned map. -/
theorem router_C6_no_open_breaker_witness :
    ∃ cb, alookup [("w1", CircuitBreaker.init 5 30 0)] sampleWorker.worker_id =
        some cb ∧ cb.state ≠ CBState.«open» :=
  router_C6_no_open_breaker 0 "llama3" sampleRegistry [] sampleWorker
    [("w1", CircuitBreaker.init 5 30 0)] (by rfl)

/-- `WorkerInfo` (`models.py`): the snapshot the registry hands the health
checker via `list_workers`. -/
structure WorkerInfo where
  worker_id : String
  model_id : String
  endpoint : String
  status : WStatus
  current_load : ℤ
  capacity : ℤ
  circuit_state : CBState
  last_heartbeat : Option ℚ
deriving DecidableEq, Repr

/-- The registry calls the health checker makes on a timed-out worker. -/
inductive HealthAction where
  | markUnhealthy (worker_id : String)
  | removeWorker (worker_id : String)
deriving DecidableEq, Repr

/-- Python dict assignment `d[k] = v`: update in place or append fresh. -/
def aupsert {α : Type} (l : List (String × α)) (k : String) (v : α) :
    List (String × α) :=
  match alookup l k with
  | some _ => aupdate l k v
  | none => l ++ [(k, v)]

/-- `HealthChecker._handle_timeout`: on a successful probe mark the worker
unhealthy and clear its probe-failure counter; on a failed probe bump the
counter, and either remove the worker (counter at threshold, counter
cleared) or mark it unhealthy. -/
def handle_timeout (probe_failures_threshold : ℕ) (probeOk : Bool)
    (probe_failures : List (String × ℕ)) (worker_id : String) :
    List HealthAction × List (String × ℕ) :=
  if probeOk then
    ([HealthAction.markUnhealthy worker_id], aerase probe_failures worker_id)
  else
    let failures := (alookup probe_failures worker_id).getD 0 + 1
    let pf1 := aupsert probe_failures worker_id failures
    if failures ≥ probe_failures_threshold then
      ([HealthAction.removeWorker worker_id], aerase pf1 worker_id)
    else
      ([HealthAction.markUnhealthy worker_id], pf1)

/-- `HealthChecker._check_workers`: one scan over the worker snapshot.
Draining workers, workers without a heartbeat, and workers whose heartbeat
is within `heartbeat_timeout` are skipped; the rest are probed
(`probeOk endpoint`) and handled by `handle_timeout`, threading the
probe-failure counters. -/
def check_workers (now : ℚ) (heartbeat_timeout : ℤ)
    (probe_failures_threshold : ℕ) (probeOk : String → Bool) :
    List WorkerInfo → List (String × ℕ) → List HealthAction × List (String × ℕ)
  | [], probe_failures => ([], probe_failures)
  | wi :: rest, probe_failures =>
    if wi.status = WStatus.draining then
      check_workers now heartbeat_timeout probe_failures_threshold probeOk
        rest probe_failures
    else
      match wi.last_heartbeat with
      | none =>
          check_workers now heartbeat_timeout probe_failures_threshold probeOk
            rest probe_failures
      | some hb =>
          if now - hb > (heartbeat_timeout : ℚ) then
            let r := handle_timeout probe_failures_threshold
              (probeOk wi.endpoint) probe_failures wi.worker_id
            let r' := check_workers now heartbeat_timeout
              probe_failures_threshold probeOk rest r.2
            (r.1 ++ r'.1, r'.2)
          else
            check_workers now heartbeat_timeout probe_failures_threshold probeOk
              rest probe_failures

/-- Interpretation of a health action as the registry call it stands for. -/
def applyHealthAction (S : WorkerRegistry) : HealthAction → WorkerRegistry
  | HealthAction.markUnhealthy worker_id => S.mark_unhealthy worker_id
  | HealthAction.removeWorker worker_id => S.remove_worker worker_id

/-- C5: a scan skips draining workers and workers whose heartbeat is within
`heartbeat_timeout`; a timed-out worker with a successful probe yields
`mark_unhealthy` and a cleared counter; a failed probe bumps the counter
and yields `remove` with a cleared counter at the threshold, else
`mark_unhealthy`. -/
theorem health_C5_scan (now : ℚ) (heartbeat_timeout : ℤ)
    (probe_failures_threshold : ℕ) (probeOk : String → Bool) (wi : WorkerInfo)
    (rest : List WorkerInfo) (pf : List (String × ℕ)) :
    (wi.status = WStatus.draining →
      check_workers now heartbeat_timeout probe_failures_threshold probeOk
          (wi :: rest) pf =
        check_workers now heartbeat_timeout probe_failures_threshold probeOk
          rest pf) ∧
    (∀ hb, wi.last_heartbeat = some hb → ¬ now - hb > (heartbeat_timeout : ℚ) →
      check_workers now heartbeat_timeout probe_failures_threshold probeOk
          (wi :: rest) pf =
        check_workers now heartbeat_timeout probe_failures_threshold probeOk
          rest pf) ∧
    (∀ hb, wi.status ≠ WStatus.draining → wi.last_heartbeat = some hb →
      now - hb > (heartbeat_timeout : ℚ) → probeOk wi.endpoint = true →
      check_workers now heartbeat_timeout probe_failures_threshold probeOk
          (wi :: rest) pf =
        (HealthAction.markUnhealthy wi.worker_id ::
          (check_workers now heartbeat_timeout probe_failures_threshold probeOk
            rest (aerase pf wi.worker_id)).1,
         (check_workers now heartbeat_timeout probe_failures_threshold probeOk
            rest (aerase pf wi.worker_id)).2)) ∧
    (∀ hb, wi.status ≠ WStatus.draining → wi.last_heartbeat = some hb →
      now - hb > (heartbeat_timeout : ℚ) → probeOk wi.endpoint = false →
      (alookup pf wi.worker_id).getD 0 + 1 ≥ probe_failures_threshold →
      check_workers now heartbeat_timeout probe_failures_threshold probeOk
          (wi :: rest) pf =
        (HealthAction.removeWorker wi.worker_id ::
          (check_workers now heartbeat_timeout probe_failures_threshold probeOk
            rest (aerase (aupsert pf wi.worker_id
              ((alookup pf wi.worker_id).getD 0 + 1)) wi.worker_id)).1,
         (check_workers now heartbeat_timeout probe_failures_threshold probeOk
            rest (aerase (aupsert pf wi.worker_id
              ((alookup pf wi.worker_id).getD 0 + 1)) wi.worker_id)).2)) ∧
    (∀ hb, wi.status ≠ WStatus.draining → wi.last_heartbeat = some hb →
      now - hb > (heartbeat_timeout : ℚ) → probeOk wi.endpoint = false →
      ¬ (alookup pf wi.worker_id).getD 0 + 1 ≥ probe_failures_threshold →
      check_workers now heartbeat_timeout probe_failures_threshold probeOk
          (wi :: rest) pf =
        (HealthAction.markUnhealthy wi.worker_id ::
          (check_workers now heartbeat_timeout probe_failures_threshold probeOk
            rest (aupsert pf wi.worker_id
              ((alookup pf wi.worker_id).getD 0 + 1))).1,
         (check_workers now heartbeat_timeout probe_failures_threshold probeOk
            rest (aupsert pf wi.worker_id
              ((alookup pf wi.worker_id).getD 0 + 1))).2)) := by
  refine ⟨?_, ?_, ?_, ?_, ?_⟩
  · intro hdr
    simp only [check_workers, if_pos hdr]
  · intro hb hhb htime
    by_cases hdr : wi.status = WStatus.draining
    · simp only [check_workers, if_pos hdr]
    · simp only [check_workers, if_neg hdr, hhb, if_neg htime]
  · intro hb hdr hhb htime hprobe
    simp only [check_workers, if_neg hdr, hhb, if_pos htime, handle_timeout,
               hprobe, eq_self_iff_true, if_true, List.singleton_append]
  · intro hb hdr hhb htime hprobe hthr
    simp only [check_workers, if_neg hdr, hhb, if_pos htime, handle_timeout,
               hprobe, reduceCtorEq, if_false, if_pos hthr, List.singleton_append]
  · intro hb hdr hhb htime hprobe hthr
    simp only [check_workers, if_neg hdr, hhb, if_pos htime, handle_timeout,
               hprobe, reduceCtorEq, if_false, if_neg hthr, List.singleton_append]

/-- A healthy worker snapshot whose heartbeat is stale at time 100. -/
def staleWorkerInfo : WorkerInfo :=
  { worker_id := "w1", model_id := "llama3", endpoint := "http://worker-1:9001",
    status := WStatus.healthy, current_load := 0, capacity := 10,
    circuit_state := CBState.closed, last_heartbeat := some 0 }

/-- Witness for C5: at time 100 with timeout 60, a stale worker whose probe
succeeds is marked unhealthy and its probe-failure counter cleared. -/
theorem health_C5_scan_witness :
    check_workers 100 60 3 (fun _ => true) [staleWorkerInfo] [] =
      (HealthAction.markUnhealthy staleWorkerInfo.worker_id ::
        (check_workers 100 60 3 (fun _ => true) []
          (aerase [] staleWorkerInfo.worker_id)).1,
       (check_workers 100 60 3 (fun _ => true) []
          (aerase [] staleWorkerInfo.worker_id)).2) :=
  (health_C5_scan 100 60 3 (fun _ => true) staleWorkerInfo [] []).2.2.1 0
    (by decide) rfl (by norm_num) rfl

/-- Outcome of `RegistrationClient._register_with_retry`: success at some
attempt, the final-attempt failure re-raised, or — when `retry_count = 0` —
the loop body never running. -/
inductive RetryResult where
  | success (attempt : ℕ) (total_wait : ℤ)
  | raised (attempt : ℕ) (total_wait : ℤ)
  | skipped (total_wait : ℤ)
deriving DecidableEq, Repr

/-- The `for attempt in range(1, retry_count + 1)` loop of
`_register_with_retry`, with `fuel` attempts left: try the attempt, re-raise
on the last one, otherwise sleep `delay` and double it capped at 60. -/
def register_with_retry_loop (outcome : ℕ → Bool) :
    ℕ → ℕ → ℤ → ℤ → RetryResult
  | _, 0, _, waited => RetryResult.skipped waited
  | attempt, fuel + 1, delay, waited =>
      if outcome attempt then RetryResult.success attempt waited
      else if fuel = 0 then RetryResult.raised attempt waited
      else register_with_retry_loop outcome (attempt + 1) fuel
             (min (delay * 2) 60) (waited + delay)

/-- `RegistrationClient._register_with_retry`: attempts start at 1 with
initial delay `retry_delay`; `outcome k` tells whether the k-th attempt's
registration POST succeeds. -/
def register_with_retry (outcome : ℕ → Bool) (retry_count : ℕ)
    (retry_delay : ℤ) : RetryResult :=
  register_with_retry_loop outcome 1 retry_count retry_delay 0

/-- Total time slept by `n` consecutive failed attempts whose first sleep
is `delay`, each subsequent sleep being the double of the previous one
capped at 60. -/
def sumBackoff (delay : ℤ) : ℕ → ℤ
  | 0 => 0
  | n + 1 => delay + sumBackoff (min (delay * 2) 60) n

lemma retry_loop_success (outcome : ℕ → Bool) (j : ℕ) (hj : outcome j = true) :
    ∀ (fuel attempt : ℕ) (delay waited : ℤ),
      attempt ≤ j → j < attempt + fuel →
      (∀ k, attempt ≤ k → k < j → outcome k = false) →
      register_with_retry_loop outcome attempt fuel delay waited =
        RetryResult.success j (waited + sumBackoff delay (j - attempt)) := by
  intro fuel
  induction fuel with
  | zero => intro attempt delay waited h1 h2 _; omega
  | succ f ih =>
      intro attempt delay waited h1 h2 hfail
      by_cases hja : j = attempt
      · subst hja
        unfold register_with_retry_loop
        rw [if_pos hj]
        simp [sumBackoff]
      · have hlt : attempt < j := lt_of_le_of_ne h1 (Ne.symm hja)
        have hout : outcome attempt = false := hfail attempt le_rfl hlt
        have hf : f ≠ 0 := by omega
        unfold register_with_retry_loop
        rw [if_neg (by simp [hout]), if_neg hf]
        rw [ih (attempt + 1) (min (delay * 2) 60) (waited + delay)
              (by omega) (by omega)
              (fun k hk1 hk2 => hfail k (by omega) hk2)]
        have : j - attempt = (j - (attempt + 1)) + 1 := by omega
        rw [this, sumBackoff]
        ring_nf

lemma retry_loop_raised (outcome : ℕ → Bool) :
    ∀ (fuel attempt : ℕ) (delay waited : ℤ), 1 ≤ fuel →
      (∀ k, attempt ≤ k → k < attempt + fuel → outcome k = false) →
      register_with_retry_loop outcome attempt fuel delay waited =
        RetryResult.raised (attempt + fuel - 1)
          (waited + sumBackoff delay (fuel - 1)) := by
  intro fuel
  induction fuel with
  | zero => omega
  | succ f ih =>
      intro attempt delay waited _ hfail
      have hout : outcome attempt = false := hfail attempt le_rfl (by omega)
      unfold register_with_retry_loop
      rw [if_neg (by simp [hout])]
      by_cases hf : f = 0
      · subst hf
        rw [if_pos rfl]
        simp [sumBackoff]
      · rw [if_neg hf]
        rw [ih (attempt + 1) (min (delay * 2) 60) (waited + delay)
              (by omega) (fun k hk1 hk2 => hfail k (by omega) (by omega))]
        have h1 : attempt + 1 + f - 1 = attempt + (f + 1) - 1 := by omega
        have h2 : f = (f + 1) - 1 := by omega
        rw [h1]
        congr 1
        rw [← h2]
        have : f - 1 + 1 = f := by omega
        cases f with
        | zero => exact absurd rfl hf
        | succ f' =>
            simp only [Nat.add_sub_cancel, sumBackoff]
            ring_nf

/-- A controller that rejects registration attempts 1 and 2 and accepts
attempt 3 (scenario S6). -/
def failTwiceOutcome : ℕ → Bool := fun k => decide (3 ≤ k)

/-- C8 counterexample: with `retry_delay = 40` the first two delays are
40 and `min(80, 60) = 60`, so the two-failures-then-success total wait is
100, not `retry_delay + 2·retry_delay = 120` — the doubling is capped at
60 s, which the claim's closed form ignores. -/
theorem retry_C8_cex :
    register_with_retry failTwiceOutcome 30 40 = RetryResult.success 3 100 ∧
    ¬ (100 : ℤ) = 40 + 2 * 40 := by
  constructor
  · decide
  · decide

/-- C8 amended: registration waits `retry_delay` before the second attempt
and after each further failure doubles the delay, capping the doubled
delay (not the initial one) at 60 s; at most `retry_count` attempts run
and failure of the last is fatal (re-raised); when the first two attempts
fail and the third succeeds the total wait is
`retry_delay + min(2·retry_delay, 60)`. -/
theorem retry_C8_amended (outcome : ℕ → Bool) (retry_count : ℕ) (d : ℤ) :
    (∀ j, 1 ≤ j → j ≤ retry_count → outcome j = true →
       (∀ k, 1 ≤ k → k < j → outcome k = false) →
       register_with_retry outcome retry_count d =
         RetryResult.success j (sumBackoff d (j - 1))) ∧
    (1 ≤ retry_count → (∀ k, 1 ≤ k → k ≤ retry_count → outcome k = false) →
       register_with_retry outcome retry_count d =
         RetryResult.raised retry_count (sumBackoff d (retry_count - 1))) ∧
    (3 ≤ retry_count → outcome 1 = false → outcome 2 = false →
       outcome 3 = true →
       register_with_retry outcome retry_count d =
         RetryResult.success 3 (d + min (d * 2) 60)) := by
  refine ⟨?_, ?_, ?_⟩
  · intro j h1 h2 hj hfail
    unfold register_with_retry
    rw [retry_loop_success outcome j hj retry_count 1 d 0 h1 (by omega) hfail]
    rw [zero_add]
  · intro hrc hfail
    unfold register_with_retry
    rw [retry_loop_raised outcome retry_count 1 d 0 hrc
          (fun k hk1 hk2 => hfail k hk1 (by omega))]
    congr 1
    · omega
    · rw [zero_add]
  · intro hrc h1 h2 h3
    unfold register_with_retry
    rw [retry_loop_success outcome 3 h3 retry_count 1 d 0 (by omega) (by omega)
          (fun k hk1 hk2 => by interval_cases k <;> assumption)]
    rw [zero_add]
    show RetryResult.success 3 (sumBackoff d 2) = _
    simp [sumBackoff]

/-- Witness for the amended C8 at the default `retry_delay = 5`: success on
attempt 3 after waiting `5 + min(10, 60) = 15` seconds. -/
theorem retry_C8_amended_witness :
    register_with_retry failTwiceOutcome 30 5 =
      RetryResult.success 3 (5 + min (5 * 2) 60) :=
  (retry_C8_amended failTwiceOutcome 30 5).2.2 (by decide) (by decide)
    (by decide) (by decide)

/-- The two load-counter operations of the `RegistrationClient`. -/
inductive LoadOp where
  | increment_load
  | decrement_load
deriving DecidableEq, Repr

/-- `increment_load` adds one; `decrement_load` clamps at zero
(`max(0, load - 1)`). -/
def apply_load_op (load : ℤ) : LoadOp → ℤ
  | LoadOp.increment_load => load + 1
  | LoadOp.decrement_load => max 0 (load - 1)

/-- Run a sequence of load operations from a starting counter value. -/
def apply_load_ops (load : ℤ) (ops : List LoadOp) : ℤ :=
  ops.foldl apply_load_op load

lemma apply_load_ops_nonneg : ∀ (ops : List LoadOp) (l : ℤ), 0 ≤ l →
    0 ≤ apply_load_ops l ops := by
  intro ops
  induction ops with
  | nil => intro l hl; exact hl
  | cons op rest ih =>
      intro l hl
      cases op with
      | increment_load => exact ih (l + 1) (by omega)
      | decrement_load => exact ih (max 0 (l - 1)) (le_max_left 0 (l - 1))

lemma apply_load_ops_balanced : ∀ ops : List LoadOp,
    (∀ p : List LoadOp, List.IsPrefix p ops →
       p.count LoadOp.decrement_load ≤ p.count LoadOp.increment_load) →
    apply_load_ops 0 ops = (ops.count LoadOp.increment_load : ℤ) -
      (ops.count LoadOp.decrement_load : ℤ) := by
  intro ops
  induction ops using List.reverseRecOn with
  | nil => intro _; simp [apply_load_ops]
  | append_singleton ps op ih =>
      intro hpre
      have hps := ih (fun p hp => hpre p (hp.trans (List.prefix_append ps [op])))
      rw [show apply_load_ops 0 (ps ++ [op]) =
            apply_load_op (apply_load_ops 0 ps) op by
          simp [apply_load_ops]]
      cases op with
      | increment_load =>
          rw [hps]
          simp [apply_load_op, List.count_append]
          omega
      | decrement_load =>
          have hfull := hpre (ps ++ [LoadOp.decrement_load])
            (List.prefix_refl _)
          rw [List.count_append, List.count_append] at hfull
          simp at hfull
          rw [hps]
          simp [apply_load_op, List.count_append]
          omega

/-- C9: the load counter started at zero never goes negative under any
sequence of increments and clamped decrements; and for every interleaving
of `N` increment/decrement pairs in which each prefix has at least as many
increments as decrements (each decrement follows its matching increment),
the final counter value is zero. -/
theorem load_C9_counter :
    (∀ ops : List LoadOp, 0 ≤ apply_load_ops 0 ops) ∧
    (∀ (N : ℕ) (ops : List LoadOp),
       ops.count LoadOp.increment_load = N →
       ops.count LoadOp.decrement_load = N →
       (∀ p ∈ ops.inits,
          p.count LoadOp.decrement_load ≤ p.count LoadOp.increment_load) →
       apply_load_ops 0 ops = 0) := by
  constructor
  · intro ops
    exact apply_load_ops_nonneg ops 0 le_rfl
  · intro N ops hinc hdec hpre
    rw [apply_load_ops_balanced ops
          (fun p hp => hpre p ((List.mem_inits p ops).mpr hp))]
    rw [hinc, hdec]
    omega

/-- Witness for C9 with `N = 2` matched pairs. -/
theorem load_C9_counter_witness :
    apply_load_ops 0 [LoadOp.increment_load, LoadOp.increment_load,
      LoadOp.decrement_load, LoadOp.decrement_load] = 0 :=
  load_C9_counter.2 2
    [LoadOp.increment_load, LoadOp.increment_load,
     LoadOp.decrement_load, LoadOp.decrement_load]
    (by decide) (by decide) (by decide)
